import Mathlib

/-!
Verification development for the Pung round engine (label algebra, bucket
partitioning, batch-code encoding, BST array layout, client retrieval
scheduling and the server round state machine).

Machine integers are modelled as `Nat` with explicit `% 2^w` where the source
relies on wrapping or casts; bytes are `Nat` values `< 256`; byte strings are
`List Nat`.  Fallible code (panics, asserts, out-of-bounds indexing) is
modelled with `Option`.
-/

namespace Pung

/-- Size of a label in bytes (source: db/mod.rs `LABEL_SIZE`). -/
def LABEL_SIZE : Nat := 32

/-- Size of a ciphertext in bytes (source: db/mod.rs `CIPHER_SIZE`). -/
def CIPHER_SIZE : Nat := 238

/-- Size of a MAC in bytes (source: db/mod.rs `MAC_SIZE`). -/
def MAC_SIZE : Nat := 16

/-- Size of a full tuple in bytes (source: db/mod.rs `TUPLE_SIZE`). -/
def TUPLE_SIZE : Nat := LABEL_SIZE + CIPHER_SIZE + MAC_SIZE

/-- Lexicographic comparison of two numeric sequences, element by element,
with the shorter sequence comparing as smaller on a tie.  This is the
comparison Rust derives for slices and arrays (`[u8]`, `[u64; 4]`). -/
def lexCmp : List Nat → List Nat → Ordering
  | [], [] => .eq
  | [], _ :: _ => .lt
  | _ :: _, [] => .gt
  | a :: as, b :: bs => (compare a b).then (lexCmp as bs)

/-- Rust `l <= p` on slices: true unless the comparison is `Greater`. -/
def listLe (l p : List Nat) : Bool :=
  lexCmp l p ≠ .gt

/-- Little-endian value of a byte string (least significant byte first).
Used to model the source's unsafe cast of a 32-byte label to `[u64; 4]`
on a little-endian machine. -/
def leVal : List Nat → Nat
  | [] => 0
  | b :: bs => b + 256 * leVal bs

/-- The four 64-bit limbs obtained by reinterpreting a 32-byte label as a
`[u64; 4]` array on a little-endian machine: limb `i` is the little-endian
value of bytes `8*i .. 8*i+7` (source: util/mod.rs `label_cmp` unsafe cast). -/
def labelLimbs (l : List Nat) : List Nat :=
  [leVal (l.take 8), leVal ((l.drop 8).take 8),
   leVal ((l.drop 16).take 8), leVal ((l.drop 24).take 8)]

/-- util/mod.rs `label_cmp`: compares two 32-byte labels by casting each to a
`[u64; 4]` little-endian word array and comparing the arrays
lexicographically. -/
def label_cmp (l1 l2 : List Nat) : Ordering :=
  lexCmp (labelLimbs l1) (labelLimbs l2)

/-- Modelled from the spec: "unsigned big-endian byte comparison", i.e. plain
lexicographic comparison of the 32 bytes most significant byte first.  This is
the comparison the spec mandates for interoperability; it is compared against
the source's `label_cmp`. -/
def labelCmpByteSpec (l1 l2 : List Nat) : Ordering :=
  lexCmp l1 l2

/-- Big-endian value of a byte string (most significant byte first). -/
def beVal : List Nat → Nat
  | [] => 0
  | b :: bs => b * 256 ^ bs.length + beVal bs

/-- Big-endian byte string of width `k` for a value `v < 256^k`. -/
def toBE : Nat → Nat → List Nat
  | 0, _ => []
  | k + 1, v => v / 256 ^ k :: toBE k (v % 256 ^ k)

/-- `u32::max_value()`. -/
def U32MAX : Nat := 2 ^ 32 - 1

/-- util/mod.rs `label_marker(index, buckets)`: the 4-byte big-endian encoding
of `(u32::MAX / buckets) * (index + 1)` computed in `u32` arithmetic (the
source casts `buckets` and `index` from `usize` to `u32`, hence the `% 2^32`).
The source also asserts `index < buckets`. -/
def label_marker (index buckets : Nat) : List Nat :=
  toBE 4 ((U32MAX / (buckets % 2 ^ 32)) * ((index % 2 ^ 32) + 1) % 2 ^ 32)

/-- The numeric value of marker `index` for `buckets` partitions (no
truncation; theorems show it agrees with `label_marker` in range). -/
def markerVal (buckets index : Nat) : Nat :=
  U32MAX / buckets * (index + 1)

/-- The partition list a client builds at start-up: `label_marker(i, k)` for
`i` in `0..k` (source: client/mod.rs `PungClient::new`). -/
def partitions (k : Nat) : List (List Nat) :=
  (List.range k).map fun i => label_marker i k

/-- Loop body of util/mod.rs `bucket_idx`: return the index of the first
partition `p` with `label <= p` (Rust slice comparison), or `0` if none. -/
def bucketIdxGo (label : List Nat) : List (List Nat) → Nat → Nat
  | [], _ => 0
  | p :: ps, i => if listLe label p then i else bucketIdxGo label ps (i + 1)

/-- util/mod.rs `bucket_idx(label, partitions)`. -/
def bucket_idx (label : List Nat) (parts : List (List Nat)) : Nat :=
  bucketIdxGo label parts 0

/-- The first four bytes of a label read as a big-endian 32-bit integer. -/
def first4BE (label : List Nat) : Nat :=
  beVal (label.take 4)

/-- Modelled from the spec (claim C5's reading): `marker(i) = (2^32 / k)·(i+1)`
and `bucket_of(label, k)` is the smallest `i` with `first4BE label ≤
marker(i)`. -/
def claimMarkerVal (k i : Nat) : Nat :=
  2 ^ 32 / k * (i + 1)

/-- Modelled from the spec (claim C5's reading): smallest `i < k` whose claimed
marker is `≥` the label's first four bytes. -/
def claimBucketOf (label : List Nat) (k : Nat) : Option Nat :=
  (List.range k).find? fun i => first4BE label ≤ claimMarkerVal k i

/-- The corrected reading of `bucket_idx` for 32-byte labels: the smallest
`i < k` whose marker value strictly exceeds the label's first four bytes, and
`0` when there is none. -/
def amendedBucketOf (label : List Nat) (k : Nat) : Nat :=
  match (List.range k).find? (fun i => first4BE label < markerVal k i) with
  | some i => i
  | none => 0

/-- db/mod.rs `PungTuple`: a fixed-size record of label, ciphertext and MAC
bytes. -/
structure PungTuple where
  data : List Nat
deriving DecidableEq, Repr

/-- db/tuple.rs `PungTuple::label`: the first `LABEL_SIZE` bytes. -/
def PungTuple.label (t : PungTuple) : List Nat :=
  t.data.take LABEL_SIZE

/-- db/tuple.rs `PungTuple::lt`: limb-wise less-than of the tuple's label and
a raw label (unsafe `[u64; 4]` cast on both sides). -/
def PungTuple.lt (t : PungTuple) (label : List Nat) : Bool :=
  lexCmp (labelLimbs t.label) (labelLimbs label) = .lt

/-- db/tuple.rs `PungTuple::gt`: limb-wise greater-than. -/
def PungTuple.gt (t : PungTuple) (label : List Nat) : Bool :=
  lexCmp (labelLimbs t.label) (labelLimbs label) = .gt

/-- db/tuple.rs `impl Ord for PungTuple`: delegates to `util::label_cmp` on
the labels. -/
def PungTuple.cmp (t1 t2 : PungTuple) : Ordering :=
  label_cmp t1.label t2.label

/-- db/mod.rs `RetScheme`. -/
inductive RetScheme
  | Explicit
  | Bloom
  | Tree
deriving DecidableEq, Repr

/-- db/mod.rs `OptScheme`. -/
inductive OptScheme
  | Normal
  | Aliasing
  | Hybrid2
  | Hybrid4
deriving DecidableEq, Repr

/-- The derived `PartialOrd` rank of an `OptScheme` (declaration order). -/
def OptScheme.rank : OptScheme → Nat
  | .Normal => 0
  | .Aliasing => 1
  | .Hybrid2 => 2
  | .Hybrid4 => 3

/-- Rust `opt_scheme >= OptScheme::Aliasing` (derived `PartialOrd`). -/
def OptScheme.aliased (o : OptScheme) : Bool :=
  2 ≤ o.rank + 1

/-- db/tuple.rs `impl BitXor for &PungTuple`: pointwise byte XOR (the source
asserts the operands have equal length; all tuples are `TUPLE_SIZE` bytes). -/
def PungTuple.pxor (a b : PungTuple) : PungTuple :=
  ⟨List.zipWith Nat.xor a.data b.data⟩

/-- db/tuple.rs `PungTuple::default`: the all-zero tuple. -/
def PungTuple.zero : PungTuple :=
  ⟨List.replicate TUPLE_SIZE 0⟩

/-- XOR of a list of tuples, accumulated from the all-zero tuple exactly as
the client reconstructs a tuple from batch-code parts (`let mut tuple =
PungTuple::default(); … tuple ^= part`). -/
def xorList (l : List PungTuple) : PungTuple :=
  l.foldl PungTuple.pxor PungTuple.zero

/-- Boolean form of the tuple order used by `Vec::sort` (ascending under the
`Ord` instance, which delegates to `label_cmp`). -/
def tupleLeB (a b : PungTuple) : Bool :=
  a.cmp b ≠ .gt

/-- Stable insertion of a tuple into a sorted list: the new element is placed
before the first existing element it is `≤` to, so earlier elements stay
before equal later ones. -/
def insertTuple (t : PungTuple) : List PungTuple → List PungTuple
  | [] => [t]
  | u :: us => if tupleLeB t u then t :: u :: us else u :: insertTuple t us

/-- db/mod.rs `Collection::sort`: `self.set.sort()` — a stable sort by the
tuple `Ord` (modelled as stable insertion sort, which computes the same
stable ascending reordering). -/
def sortTuples : List PungTuple → List PungTuple
  | [] => []
  | t :: ts => insertTuple t (sortTuples ts)

/-- util/mod.rs `tree_height(num)` = `⌈log₂(num + 1)⌉`.  The source computes
the ceiling via `f64::log2`, which is exact on the integer inputs the system
handles; we model the exact mathematical value. -/
def tree_height (num : Nat) : Nat :=
  Nat.clog 2 (num + 1)

/-- db/bst.rs `find_idx(n)`: the root index of a complete BST on `n` sorted
elements: `f/2 + min(n − f, (m − f)/2)` with `f = 2^⌊log₂(n+1)⌋ − 1` and
`m = 2^⌈log₂(n+1)⌉ − 1`.  The source computes the two integer logarithms via
`f32::log2`, exact for the collection sizes the system handles; we model the
exact mathematical floor/ceiling logarithms. -/
def find_idx (n : Nat) : Nat :=
  if n = 1 then 0
  else
    (2 ^ Nat.log 2 (n + 1) - 1) / 2 +
      min (n - (2 ^ Nat.log 2 (n + 1) - 1))
        ((2 ^ Nat.clog 2 (n + 1) - 1 - (2 ^ Nat.log 2 (n + 1) - 1)) / 2)

lemma find_idx_lt (n : Nat) (hn : 1 ≤ n) : find_idx n < n := by
  rw [find_idx]
  split_ifs with h1
  · omega
  · have hfle : 2 ^ Nat.log 2 (n + 1) ≤ n + 1 := Nat.pow_log_le_self 2 (by omega)
    have hclog : Nat.clog 2 (n + 1) ≤ Nat.log 2 (n + 1) + 1 :=
      (Nat.le_pow_iff_clog_le (by omega)).mp
        (le_of_lt (Nat.lt_pow_succ_log_self (by omega) (n + 1)))
    have hmf : 2 ^ Nat.clog 2 (n + 1) ≤ 2 * 2 ^ Nat.log 2 (n + 1) := by
      calc 2 ^ Nat.clog 2 (n + 1) ≤ 2 ^ (Nat.log 2 (n + 1) + 1) :=
            Nat.pow_le_pow_right (by omega) hclog
        _ = 2 * 2 ^ Nat.log 2 (n + 1) := by ring
    have hp : 0 < 2 ^ Nat.log 2 (n + 1) := Nat.pos_pow_of_pos _ (by omega)
    have hmin1 : min (n - (2 ^ Nat.log 2 (n + 1) - 1))
        ((2 ^ Nat.clog 2 (n + 1) - 1 - (2 ^ Nat.log 2 (n + 1) - 1)) / 2) ≤
        n - (2 ^ Nat.log 2 (n + 1) - 1) := Nat.min_le_left _ _
    have hmin2 : min (n - (2 ^ Nat.log 2 (n + 1) - 1))
        ((2 ^ Nat.clog 2 (n + 1) - 1 - (2 ^ Nat.log 2 (n + 1) - 1)) / 2) ≤
        (2 ^ Nat.clog 2 (n + 1) - 1 - (2 ^ Nat.log 2 (n + 1) - 1)) / 2 :=
      Nat.min_le_right _ _
    omega

/-- Total interval length held in a BFS queue; the termination measure of the
`as_bst_order` breadth-first traversal. -/
def intervalsWeight (q : List (Nat × Nat)) : Nat :=
  (q.map fun p => p.2 - p.1 + 1).sum

/-- The sub-intervals pushed when `as_bst_order`'s loop pops `(s, e)`: the
left part `(s, idx − 1)` when `idx > s` and the right part `(idx + 1, e)` when
`e > idx && idx + 1 < l.len()`, with `idx = s + find_idx(e − s + 1)`. -/
def bstChildren {α : Type} (l : List α) (s e : Nat) : List (Nat × Nat) :=
  (if s < s + find_idx (e - s + 1) then
    [(s, s + find_idx (e - s + 1) - 1)] else []) ++
  (if s + find_idx (e - s + 1) < e ∧ s + find_idx (e - s + 1) + 1 < l.length
    then [(s + find_idx (e - s + 1) + 1, e)] else [])

lemma intervalsWeight_append (a b : List (Nat × Nat)) :
    intervalsWeight (a ++ b) = intervalsWeight a + intervalsWeight b := by
  simp [intervalsWeight]

lemma intervalsWeight_pair_cons (s e : Nat) (q : List (Nat × Nat)) :
    intervalsWeight ((s, e) :: q) = (e - s + 1) + intervalsWeight q := by
  simp [intervalsWeight]

lemma bstChildren_weight_le {α : Type} (l : List α) (s e : Nat) :
    intervalsWeight (bstChildren l s e) ≤ e - s := by
  have hf := find_idx_lt (e - s + 1) (by omega)
  simp only [bstChildren, intervalsWeight, List.map_append, List.sum_append]
  split_ifs with h1 h2 h2 <;>
    simp only [List.map_cons, List.map_nil, List.sum_cons, List.sum_nil] <;>
    omega

/-- The queue loop of db/bst.rs `as_bst_order`: pop an interval `(s, e)`, copy
the element at `s + find_idx(e − s + 1)` to the output, and push the left and
right sub-intervals.  Out-of-bounds indexing (a Rust panic) yields `none`. -/
def bstBfs {α : Type} (l : List α) : List (Nat × Nat) → Option (List α)
  | [] => some []
  | (s, e) :: q =>
    match l[s + find_idx (e - s + 1)]? with
    | none => none
    | some x =>
      match bstBfs l (q ++ bstChildren l s e) with
      | none => none
      | some rest => some (x :: rest)
termination_by q => intervalsWeight q
decreasing_by
  have h1 := bstChildren_weight_le l s e
  rw [intervalsWeight_append, intervalsWeight_pair_cons]
  omega

/-- db/bst.rs `as_bst_order`: seeds the BFS with the interval
`(0, self.len() − 1)`.  On an empty vector the `self.len() − 1` subtraction
underflows (a panic in debug builds; in release builds the wrapped interval
leads to an out-of-bounds index), modelled as `none`. -/
def as_bst_order {α : Type} (l : List α) : Option (List α) :=
  if l.isEmpty then none else bstBfs l [(0, l.length - 1)]

/-- db/mod.rs `Collection::as_bst_array` as invoked from `Bucket::encode`: the
collection is reordered only under `Tree` retrieval. -/
def applyRet (ret : RetScheme) (c : List PungTuple) : Option (List PungTuple) :=
  if ret = .Tree then as_bst_order c else some c

/-- The parity-building step of db/mod.rs `Bucket::encode`: zip two
collections with XOR; if the result is shorter than the first operand (odd
split), append the first operand's last tuple unchanged. -/
def xorZipPad (a b : List PungTuple) : List PungTuple :=
  if (List.zipWith PungTuple.pxor a b).length ≠ a.length then
    List.zipWith PungTuple.pxor a b ++ [a.getLastD PungTuple.zero]
  else
    List.zipWith PungTuple.pxor a b

/-- The first half of the sorted bucket (`split_off((len+1)/2)` keeps the
first `⌈len/2⌉` tuples in collection 0). -/
def h4Front (ts : List PungTuple) : List PungTuple :=
  (sortTuples ts).take (((sortTuples ts).length + 1) / 2)

/-- The second half of the sorted bucket (what `split_off` returns). -/
def h4Back (ts : List PungTuple) : List PungTuple :=
  (sortTuples ts).drop (((sortTuples ts).length + 1) / 2)

/-- Systematic collection 0: first half of the front half. -/
def h4Split0 (ts : List PungTuple) : List PungTuple :=
  (h4Front ts).take (((h4Front ts).length + 1) / 2)

/-- Systematic collection 1: second half of the front half. -/
def h4Split1 (ts : List PungTuple) : List PungTuple :=
  (h4Front ts).drop (((h4Front ts).length + 1) / 2)

/-- Systematic collection 2: first half of the back half. -/
def h4Split2 (ts : List PungTuple) : List PungTuple :=
  (h4Back ts).take (((h4Back ts).length + 1) / 2)

/-- Systematic collection 3: second half of the back half. -/
def h4Split3 (ts : List PungTuple) : List PungTuple :=
  (h4Back ts).drop (((h4Back ts).length + 1) / 2)

/-- db/mod.rs `Bucket::encode` under `OptScheme::Hybrid4`: sort collection 0,
split it in half and each half in half again (`split_off((len+1)/2)` keeps the
first `⌈len/2⌉` elements), BST-reorder the four systematic collections under
`Tree` retrieval, then build the parity collections following the fixed plan
`[(0,1), (2,3), (0,2), (1,3), (6,7)]`. -/
def encodeHybrid4 (ret : RetScheme) (ts : List PungTuple) :
    Option (List (List PungTuple)) :=
  match applyRet ret (h4Split0 ts), applyRet ret (h4Split1 ts),
      applyRet ret (h4Split2 ts), applyRet ret (h4Split3 ts) with
  | some c0, some c1, some c2, some c3 =>
    some [c0, c1, c2, c3, xorZipPad c0 c1, xorZipPad c2 c3, xorZipPad c0 c2,
      xorZipPad c1 c3, xorZipPad (xorZipPad c0 c2) (xorZipPad c1 c3)]
  | _, _, _, _ => none

/-- client/mod.rs `h4_mappings`: for each home collection `c ∈ {0,1,2,3}`, the
four alternative reconstruction subsets of `{0..8}` whose XOR at a common
index recovers the home collection's tuple. -/
def h4_mappings : Nat → List (List Nat)
  | 0 => [[0], [1, 4], [2, 6], [3, 5, 7, 8]]
  | 1 => [[1], [0, 4], [3, 7], [2, 5, 6, 8]]
  | 2 => [[2], [3, 5], [0, 6], [1, 4, 7, 8]]
  | 3 => [[3], [2, 5], [1, 7], [0, 4, 6, 8]]
  | _ => []

/-- server/rpc.rs `Phase`. -/
inductive Phase
  | Sending
  | Receiving
deriving DecidableEq, Repr

/-- Association-list lookup, modelling `HashMap::get`. -/
def alookup (m : List (Nat × Nat)) (k : Nat) : Option Nat :=
  match m.find? (fun p => p.1 == k) with
  | some p => some p.2
  | none => none

/-- Update the value stored under an existing key (`HashMap::get_mut`). -/
def aupdate (m : List (Nat × Nat)) (k v : Nat) : List (Nat × Nat) :=
  m.map fun p => if p.1 == k then (k, v) else p

/-- `HashMap::insert`: replace the value if the key exists, else add it. -/
def ainsert (m : List (Nat × Nat)) (k v : Nat) : List (Nat × Nat) :=
  if (m.find? (fun p => p.1 == k)).isSome then aupdate m k v else m ++ [(k, v)]

/-- `HashMap::remove`. -/
def aremove (m : List (Nat × Nat)) (k : Nat) : List (Nat × Nat) :=
  m.filter fun p => !(p.1 == k)

/-- A collection as the retrieval phase sees it: its tuple array plus the
per-level PIR databases built by `Collection::pir_setup` (one per level; empty
collections are skipped by `Bucket::pir_setup`, leaving `pirDbs` empty). -/
structure SrvCollection where
  set : List PungTuple
  pirDbs : List (List PungTuple)
deriving DecidableEq, Repr

/-- db/mod.rs `Collection::num_levels`: the BST height under `Tree`
retrieval, one level otherwise. -/
def num_levels (ret : RetScheme) (c : SrvCollection) : Nat :=
  if ret = .Tree then tree_height c.set.length else 1

/-- The server state shared by the RPC handlers (server/rpc.rs `PungRpc`):
round counter, phase, client-rate table, per-round send and retrieve
counters, the count of tuples received this round, the stream of physical
tuples pushed into the dataflow (and hence into the database), and the
per-bucket collections.  The queue of future-round sends and the extra-tuple
list are not represented; the claims under verification concern the
current-round paths. -/
structure ServerState where
  round : Nat
  phase : Phase
  clients : List (Nat × Nat)
  sendReqs : List (Nat × Nat)
  retReqs : List (Nat × Nat)
  sendCount : Nat
  installed : List PungTuple
  db : List (List SrvCollection)
deriving DecidableEq, Repr

/-- The empty boot state. -/
def initState : ServerState :=
  { round := 0, phase := .Sending, clients := [], sendReqs := [], retReqs := [],
    sendCount := 0, installed := [], db := [] }

/-- server/rpc.rs `PungRpc::next_id`: the current number of registered
clients. -/
def next_id (clients : List (Nat × Nat)) : Nat :=
  clients.length

/-- server/rpc.rs `register`: reject rate 0, otherwise record the new client
under `next_id` and return that id. -/
def register (st : ServerState) (rate : Nat) :
    Except String (ServerState × Nat) :=
  let id := next_id st.clients
  if rate = 0 then .error "Invalid rate (0)"
  else .ok ({ st with clients := ainsert st.clients id rate }, id)

/-- server/rpc.rs `close`: unknown ids are an error; otherwise the id is
removed from the client, send and retrieve tables. -/
def close (st : ServerState) (id : Nat) : Except String ServerState :=
  if alookup st.clients id = none then .error "Id does not exist"
  else .ok { st with
    clients := aremove st.clients id,
    sendReqs := aremove st.sendReqs id,
    retReqs := aremove st.retReqs id }

/-- The physical tuples the server builds from one wire tuple (server/rpc.rs
`send`, lines 344–362): under Aliasing/Hybrid the wire format is
`label1 ∥ label2 ∥ cipher ∥ mac` and the server pushes `label1 ∥ cipher ∥ mac`
followed by `label2 ∥ cipher ∥ mac`; otherwise the wire tuple is pushed as
is. -/
def physicalOf (opt : OptScheme) (w : List Nat) : List PungTuple :=
  if opt.aliased then
    [⟨w.take LABEL_SIZE ++ w.drop (2 * LABEL_SIZE)⟩, ⟨w.drop LABEL_SIZE⟩]
  else
    [⟨w⟩]

/-- The number of physical tuples one wire tuple expands to: 2 under
Aliasing/Hybrid, else 1. -/
def aliasFactor (opt : OptScheme) : Nat :=
  if opt.aliased then 2 else 1

/-- server/rpc.rs `send`, current-round path (`round == self.round`): the
early error checks, the rate check against the NUMBER OF WIRE TUPLES, the
decrement of the sender's remaining count by that same number, and the push of
each wire tuple's physical tuples into the dataflow (counted by
`send_ctx.count`).  The full handler additionally replays queued future-round
requests and may close the phase; those steps do not touch the present
request's accounting. -/
def sendCurrent (opt : OptScheme) (st : ServerState) (id round : Nat)
    (wire : List (List Nat)) : Except String ServerState :=
  if alookup st.clients id = none then .error "Invalid id during send."
  else if round < st.round then .error "Invalid round number."
  else if st.phase ≠ .Sending ∧ round = st.round then .error "Not sending phase."
  else if wire = [] then .error "Number of tuples sent is 0"
  else
    match alookup st.sendReqs id with
    | none => .error "Client is not synchronized."
    | some rem =>
      if rem < wire.length then .error "Send rate exceeded."
      else
        .ok { st with
          sendReqs := aupdate st.sendReqs id (rem - wire.length),
          sendCount := st.sendCount + ((wire.map (physicalOf opt)).flatten).length,
          installed := st.installed ++ (wire.map (physicalOf opt)).flatten }

/-- server/rpc.rs `send`, queued-request replay (lines 370–401): a queued
entry holds the already-expanded PHYSICAL tuples; it is rejected when the
sender is unsynchronized or `remaining * alias < physical count`, and
otherwise remaining is decremented by `physical count / alias`. -/
def processQueued (opt : OptScheme) (st : ServerState) (cid : Nat)
    (tuples : List PungTuple) : Except String ServerState :=
  let al := if opt.aliased then 2 else 1
  match alookup st.sendReqs cid with
  | none => .error "Client is not synchronized."
  | some rem =>
    if rem * al < tuples.length then .error "Send rate exceeded (queue)."
    else
      .ok { st with
        sendReqs := aupdate st.sendReqs cid (rem - tuples.length / al),
        sendCount := st.sendCount + tuples.length,
        installed := st.installed ++ tuples }

/-- The answer the PIR layer produces for a retrieval: the selected level's
database paired with the client's query (the PIR primitive itself is a black
box; its answer is a function of exactly these two inputs). -/
def Answer := List PungTuple × Nat
deriving instance DecidableEq for Answer

/-- The server state after a successful retrieval by client `id`
(server/rpc.rs `retr`, lines 525–542): the caller's remaining-retrievals
entry is decremented, and if every entry has now reached zero the server
advances the round — send counters are reset from the client table, the
round is incremented, the phase returns to Sending and every collection is
cleared. -/
def retrOkState (st : ServerState) (id : Nat) : ServerState :=
  if (aupdate st.retReqs id ((alookup st.retReqs id).getD 0 - 1)).all
      (fun p => p.2 = 0) then
    { st with
      retReqs := aupdate st.retReqs id ((alookup st.retReqs id).getD 0 - 1),
      sendReqs := st.clients,
      sendCount := 0,
      round := st.round + 1,
      phase := .Sending,
      db := st.db.map fun b => b.map fun _ => ⟨[], []⟩ }
  else
    { st with
      retReqs := aupdate st.retReqs id ((alookup st.retReqs id).getD 0 - 1) }

/-- server/rpc.rs `retr`: the error checks in source order, the PIR answer
from the selected `(bucket, collection, level)` handler, then the accounting
and possible round advance (`retrOkState`).  Indexing an absent PIR handler
(an empty collection under Explicit/Bloom retrieval never runs `pir_setup`)
is a Rust panic, modelled as `none`. -/
def retr (ret : RetScheme) (st : ServerState) (id round bucket collection level : Nat)
    (query : Nat) : Option (ServerState × Except String Answer) :=
  if alookup st.clients id = none then
    some (st, .error "Invalid id during send.")
  else if round ≠ st.round then
    some (st, .error "Invalid round number")
  else if st.phase ≠ .Receiving then
    some (st, .error "Invalid phase for retrieval")
  else if alookup st.retReqs id = none then
    some (st, .error "(ret) Client is not synchronized.")
  else if alookup st.retReqs id = some 0 then
    some (st, .error "retrieveal rate exceeded.")
  else if st.db.length ≤ bucket then
    some (st, .error "invalid bucket requested")
  else if (st.db.getD bucket []).length ≤ collection then
    some (st, .error "invalid collection requested")
  else if num_levels ret ((st.db.getD bucket []).getD collection ⟨[], []⟩) ≤ level then
    some (st, .error "invalid level requested")
  else
    match ((st.db.getD bucket []).getD collection ⟨[], []⟩).pirDbs[level]? with
    | none => none
    | some lvl => some (retrOkState st id, .ok (lvl, query))

/-- The disjunction of `retr`'s error conditions (in the order the source
checks them). -/
def retrErrCond (ret : RetScheme) (st : ServerState)
    (id round bucket collection level : Nat) : Prop :=
  alookup st.clients id = none ∨ round ≠ st.round ∨ st.phase ≠ .Receiving ∨
  alookup st.retReqs id = none ∨ alookup st.retReqs id = some 0 ∨
  st.db.length ≤ bucket ∨ (st.db.getD bucket []).length ≤ collection ∨
  num_levels ret ((st.db.getD bucket []).getD collection ⟨[], []⟩) ≤ level

/-- Well-formedness of the PIR handles after `pir_setup`: empty collections
have no handles, nonempty ones have one per level. -/
def PirWellFormed (ret : RetScheme) (st : ServerState) : Prop :=
  ∀ b ∈ st.db, ∀ c ∈ b,
    (c.set = [] → c.pirDbs = []) ∧
    (c.set ≠ [] → c.pirDbs.length = num_levels ret c)

/-- client/mod.rs `retr_hybrid4` (Explicit): the systematic collection a
label falls in — index of the first lmid the label compares `Less` than under
`label_cmp`, defaulting to collection 3. -/
def classifyGo : Nat → List (List Nat) → List Nat → Nat
  | _, [], _ => 3
  | i, lmid :: rest, label =>
    if label_cmp label lmid = .lt then i else classifyGo (i + 1) rest label

/-- `classifyGo` started at index 0 (the loop over `lmids`). -/
def classifyLabel (lmids : List (List Nat)) (label : List Nat) : Nat :=
  classifyGo 0 lmids label

/-- client/mod.rs `retr_hybrid4`: the database length used for the PIR probe
of collection `part`, given the four systematic collections' lengths —
parity collections 4/6/8 share collection 0's length, 5 shares 2's, 7 shares
1's. -/
def h4PartLen (lens : List Nat) (part : Nat) : Nat :=
  if part = 4 ∨ part = 6 ∨ part = 8 then lens.getD 0 0
  else if part = 5 then lens.getD 2 0
  else if part = 7 then lens.getD 1 0
  else lens.getD part 0

/-- One label's retrieval in `retr_hybrid4` (Explicit): scan `h4_mappings`
of the label's home collection for the first subset wholly inside the
available set, remove its parts, and emit one
`(bucket, collection, level 0, length)` PIR probe per part. -/
def probeOneLabel (bucket : Nat) (lens : List Nat) (avail : List Nat)
    (c : Nat) : List Nat × List (Nat × Nat × Nat × Nat) :=
  match (h4_mappings c).find? (fun parts => parts.all (avail.contains ·)) with
  | none => (avail, [])
  | some parts =>
    (avail.filter (fun x => !parts.contains x),
      parts.map fun p => (bucket, p, 0, h4PartLen lens p))

/-- The probe sequence of one bucket in `retr_hybrid4` (Explicit): process
the four labels' home collections in order, then probe the leftover
collections (the source iterates a `HashSet` here; the model uses ascending
order — the first emitted probe does not depend on that choice, because the
first label always consumes the singleton subset of its home collection). -/
def probeBucketGo (bucket : Nat) (lens : List Nat) :
    List Nat → List Nat → List (Nat × Nat × Nat × Nat)
  | avail, [] => avail.map fun p => (bucket, p, 0, h4PartLen lens p)
  | avail, c :: cs =>
    (probeOneLabel bucket lens avail c).2 ++
      probeBucketGo bucket lens (probeOneLabel bucket lens avail c).1 cs

/-- The full per-bucket probe sequence as a function of the peers' target
labels: classify each label against the bucket's `lmids`, then run the
availability-driven subset selection over all nine collections. -/
def hybrid4ProbeSeq (bucket : Nat) (lens : List Nat)
    (lmids : List (List Nat)) (labels : List (List Nat)) :
    List (Nat × Nat × Nat × Nat) :=
  probeBucketGo bucket lens (List.range 9) (labels.map (classifyLabel lmids))

/-- The interval transformation `as_bst_order` applies when descending from
a parent interval of length `len` to a child: the left child keeps the start
and receives `find_idx len` elements, the right child starts past the root
element and receives the rest.  `par = 0` selects the left child. -/
def nodeChild (piv : Nat × Nat) (par : Nat) : Nat × Nat :=
  if par = 0 then (piv.1, find_idx piv.2)
  else (piv.1 + find_idx piv.2 + 1, piv.2 - 1 - find_idx piv.2)

/-- The `(start, length)` interval of the source array that heap node `j`
(children of `j` at `2j+1` and `2j+2`) covers in the `as_bst_order`
traversal of an `n`-element array: node 0 covers everything, and each child
interval follows by `nodeChild` from its parent `(j-1)/2`. -/
def nodeIv (n : Nat) : Nat → Nat × Nat
  | 0 => (0, n)
  | j + 1 => nodeChild (nodeIv n (j / 2)) (j % 2)
termination_by j => j
decreasing_by
  omega

/-- The source-array index `as_bst_order` copies into output slot `j`: the
root position of node `j`'s interval. -/
def nodeRoot (n j : Nat) : Nat :=
  (nodeIv n j).1 + find_idx (nodeIv n j).2

/-- In-order traversal of the heap indices `0..n-1` read as a complete
binary tree with children of `j` at `2j+1` and `2j+2`. -/
def inorderIdx (n j : Nat) : List Nat :=
  if j < n then
    inorderIdx n (2 * j + 1) ++ j :: inorderIdx n (2 * j + 2)
  else []
termination_by n - j
decreasing_by
  · omega
  · omega

section CmpLemmas

lemma lexCmp_eq_iff : ∀ a b : List Nat, lexCmp a b = .eq ↔ a = b := by
  intro a
  induction a with
  | nil => intro b; cases b <;> simp [lexCmp]
  | cons x xs ih =>
    intro b
    cases b with
    | nil => simp [lexCmp]
    | cons y ys =>
      cases h : compare x y with
      | lt =>
        have hxy : x ≠ y := by rw [Nat.compare_eq_lt] at h; omega
        simp [lexCmp, h, Ordering.then, hxy]
      | eq =>
        have hxy : x = y := by rwa [Nat.compare_eq_eq] at h
        subst hxy
        simp [lexCmp, h, Ordering.then, ih ys]
      | gt =>
        have hxy : x ≠ y := by rw [Nat.compare_eq_gt] at h; omega
        simp [lexCmp, h, Ordering.then, hxy]

lemma leVal_inj : ∀ xs ys : List Nat, xs.length = ys.length →
    (∀ b ∈ xs, b < 256) → (∀ b ∈ ys, b < 256) → leVal xs = leVal ys → xs = ys := by
  intro xs
  induction xs with
  | nil =>
    intro ys h _ _ _
    cases ys with
    | nil => rfl
    | cons c cs => simp at h
  | cons x xs ih =>
    intro ys hlen hx hy hv
    cases ys with
    | nil => simp at hlen
    | cons y ys =>
      simp only [leVal] at hv
      have hx0 : x < 256 := hx x (by simp)
      have hy0 : y < 256 := hy y (by simp)
      have hxy : x = y ∧ leVal xs = leVal ys := by omega
      have : xs = ys := ih ys (by simpa using hlen)
        (fun b hb => hx b (List.mem_cons_of_mem _ hb))
        (fun b hb => hy b (List.mem_cons_of_mem _ hb)) hxy.2
      rw [hxy.1, this]

lemma chunk_decomp (l : List Nat) (_h : l.length = 32) :
    l = l.take 8 ++ ((l.drop 8).take 8 ++ ((l.drop 16).take 8 ++ l.drop 24)) := by
  have h1 : l.take 8 ++ l.drop 8 = l := List.take_append_drop 8 l
  have h2 : (l.drop 8).take 8 ++ l.drop 16 = l.drop 8 := by
    have := List.take_append_drop 8 (l.drop 8)
    rwa [List.drop_drop] at this
  have h3 : (l.drop 16).take 8 ++ l.drop 24 = l.drop 16 := by
    have := List.take_append_drop 8 (l.drop 16)
    rwa [List.drop_drop] at this
  rw [h3, h2, h1]

/-- Claim C2 (amended part): `label_cmp` returns `Equal` exactly when the two
32-byte labels are equal byte for byte, i.e. the limb-wise comparison agrees
with bytewise big-endian comparison on equality (though not on ordering). -/
theorem label_cmp_eq_iff (l1 l2 : List Nat) (h1 : l1.length = 32)
    (h2 : l2.length = 32) (hb1 : ∀ b ∈ l1, b < 256) (hb2 : ∀ b ∈ l2, b < 256) :
    label_cmp l1 l2 = .eq ↔ l1 = l2 := by
  rw [label_cmp, lexCmp_eq_iff]
  constructor
  · intro h
    simp only [labelLimbs, List.cons.injEq, and_true] at h
    obtain ⟨e1, e2, e3, e4⟩ := h
    have mem_take_drop : ∀ (l : List Nat) (n m : Nat), (∀ b ∈ l, b < 256) →
        ∀ b ∈ (l.drop n).take m, b < 256 := by
      intro l n m hl b hb
      exact hl b (List.mem_of_mem_drop (List.mem_of_mem_take hb))
    have len_td : ∀ (l : List Nat), l.length = 32 → ∀ n, n + 8 ≤ 32 →
        ((l.drop n).take 8).length = 8 := by
      intro l hl n hn
      simp [List.length_take, List.length_drop, hl]
      omega
    have c1 : l1.take 8 = l2.take 8 := by
      have := leVal_inj (l1.take 8) (l2.take 8)
        (by simp [List.length_take, h1, h2])
        (fun b hb => hb1 b (List.mem_of_mem_take hb))
        (fun b hb => hb2 b (List.mem_of_mem_take hb)) e1
      exact this
    have c2 : (l1.drop 8).take 8 = (l2.drop 8).take 8 :=
      leVal_inj _ _ (by rw [len_td l1 h1 8 (by omega), len_td l2 h2 8 (by omega)])
        (mem_take_drop l1 8 8 hb1) (mem_take_drop l2 8 8 hb2) e2
    have c3 : (l1.drop 16).take 8 = (l2.drop 16).take 8 :=
      leVal_inj _ _ (by rw [len_td l1 h1 16 (by omega), len_td l2 h2 16 (by omega)])
        (mem_take_drop l1 16 8 hb1) (mem_take_drop l2 16 8 hb2) e3
    have c4 : (l1.drop 24).take 8 = (l2.drop 24).take 8 :=
      leVal_inj _ _ (by rw [len_td l1 h1 24 (by omega), len_td l2 h2 24 (by omega)])
        (mem_take_drop l1 24 8 hb1) (mem_take_drop l2 24 8 hb2) e4
    have d4 : l1.drop 24 = l2.drop 24 := by
      have t1 : (l1.drop 24).take 8 = l1.drop 24 :=
        List.take_of_length_le (by simp [List.length_drop, h1])
      have t2 : (l2.drop 24).take 8 = l2.drop 24 :=
        List.take_of_length_le (by simp [List.length_drop, h2])
      rw [← t1, ← t2, c4]
    calc l1 = l1.take 8 ++ ((l1.drop 8).take 8 ++ ((l1.drop 16).take 8 ++ l1.drop 24)) :=
            chunk_decomp l1 h1
      _ = l2.take 8 ++ ((l2.drop 8).take 8 ++ ((l2.drop 16).take 8 ++ l2.drop 24)) := by
            rw [c1, c2, c3, d4]
      _ = l2 := (chunk_decomp l2 h2).symm
  · rintro rfl; rfl

/-- Witness: `label_cmp_eq_iff` applied at a concrete pair of labels. -/
theorem label_cmp_eq_iff_witness :
    label_cmp (List.replicate 32 7) (List.replicate 32 7) = .eq :=
  (label_cmp_eq_iff (List.replicate 32 7) (List.replicate 32 7)
    (by simp) (by simp)
    (by intro b hb; rw [List.eq_of_mem_replicate hb]; omega)
    (by intro b hb; rw [List.eq_of_mem_replicate hb]; omega)).mpr rfl

/-- Claim C2 (counterexample): the label pair `00 01 00 … 00` versus
`01 00 … 00`.  Bytewise big-endian comparison puts the first strictly below
the second, but `label_cmp` (the little-endian 4-limb cast) reports the first
as strictly greater, so `label_cmp` is not bytewise big-endian comparison. -/
theorem label_cmp_not_bytewise :
    label_cmp (0 :: 1 :: List.replicate 30 0) (1 :: List.replicate 31 0) = .gt ∧
    labelCmpByteSpec (0 :: 1 :: List.replicate 30 0) (1 :: List.replicate 31 0) = .lt ∧
    (0 :: 1 :: List.replicate 30 0 : List Nat).length = 32 ∧
    (1 :: List.replicate 31 0 : List Nat).length = 32 := by
  refine ⟨by decide, by decide, by decide, by decide⟩

end CmpLemmas

section MarkerLemmas

lemma beVal_lt : ∀ bs : List Nat, (∀ b ∈ bs, b < 256) → beVal bs < 256 ^ bs.length := by
  intro bs
  induction bs with
  | nil => intro _; simp [beVal]
  | cons b bs ih =>
    intro hb
    have h1 : b < 256 := hb b (by simp)
    have h2 : beVal bs < 256 ^ bs.length := ih fun c hc => hb c (List.mem_cons_of_mem _ hc)
    have : (b + 1) * 256 ^ bs.length ≤ 256 * 256 ^ bs.length :=
      Nat.mul_le_mul_right _ (by omega)
    simp only [beVal, List.length_cons, pow_succ]
    calc b * 256 ^ bs.length + beVal bs < (b + 1) * 256 ^ bs.length := by
          rw [Nat.add_mul, Nat.one_mul]; omega
      _ ≤ 256 * 256 ^ bs.length := this
      _ = 256 ^ bs.length * 256 := Nat.mul_comm _ _

lemma toBE_length : ∀ (k v : Nat), (toBE k v).length = k := by
  intro k
  induction k with
  | zero => intro v; rfl
  | succ k ih => intro v; simp [toBE, ih]

lemma toBE_beVal : ∀ bs : List Nat, (∀ b ∈ bs, b < 256) →
    toBE bs.length (beVal bs) = bs := by
  intro bs
  induction bs with
  | nil => intro _; rfl
  | cons b bs ih =>
    intro hb
    have hlt : beVal bs < 256 ^ bs.length :=
      beVal_lt bs fun c hc => hb c (List.mem_cons_of_mem _ hc)
    have hB : 0 < 256 ^ bs.length := Nat.pos_pow_of_pos _ (by omega)
    have hdiv : (b * 256 ^ bs.length + beVal bs) / 256 ^ bs.length = b := by
      rw [Nat.mul_comm b, Nat.mul_add_div hB, Nat.div_eq_of_lt hlt]
      omega
    have hmod : (b * 256 ^ bs.length + beVal bs) % 256 ^ bs.length = beVal bs := by
      rw [Nat.mul_comm b, Nat.mul_add_mod, Nat.mod_eq_of_lt hlt]
    simp only [List.length_cons, toBE, beVal, hdiv, hmod,
      ih fun c hc => hb c (List.mem_cons_of_mem _ hc)]

lemma ordering_then_assoc (a b c : Ordering) :
    (a.then b).then c = a.then (b.then c) := by
  cases a <;> rfl

lemma toBE_compare : ∀ (k v w : Nat), v < 256 ^ k → w < 256 ^ k →
    lexCmp (toBE k v) (toBE k w) = compare v w := by
  intro k
  induction k with
  | zero =>
    intro v w hv hw
    simp only [pow_zero, Nat.lt_one_iff] at hv hw
    subst hv; subst hw; rfl
  | succ k ih =>
    intro v w hv hw
    have hB : 0 < 256 ^ k := Nat.pos_pow_of_pos _ (by omega)
    have hv' : v % 256 ^ k < 256 ^ k := Nat.mod_lt _ hB
    have hw' : w % 256 ^ k < 256 ^ k := Nat.mod_lt _ hB
    have hvd := Nat.div_add_mod v (256 ^ k)
    have hwd := Nat.div_add_mod w (256 ^ k)
    simp only [toBE, lexCmp, ih _ _ hv' hw']
    cases h : compare (v / 256 ^ k) (w / 256 ^ k) with
    | lt =>
      rw [Nat.compare_eq_lt] at h
      have hvw : v < w := by
        have h2 : 256 ^ k * (v / 256 ^ k + 1) ≤ 256 ^ k * (w / 256 ^ k) :=
          Nat.mul_le_mul_left _ (by omega)
        have hx : 256 ^ k * (v / 256 ^ k + 1) =
            256 ^ k * (v / 256 ^ k) + 256 ^ k := by ring
        omega
      rw [(Nat.compare_eq_lt).mpr hvw]
      rfl
    | eq =>
      rw [Nat.compare_eq_eq] at h
      rw [h] at hvd
      have hcmp : compare (v % 256 ^ k) (w % 256 ^ k) = compare v w := by
        cases hc : compare (v % 256 ^ k) (w % 256 ^ k) with
        | lt =>
          rw [Nat.compare_eq_lt] at hc
          exact ((Nat.compare_eq_lt).mpr (by omega)).symm
        | eq =>
          rw [Nat.compare_eq_eq] at hc
          exact ((Nat.compare_eq_eq).mpr (by omega)).symm
        | gt =>
          rw [Nat.compare_eq_gt] at hc
          exact ((Nat.compare_eq_gt).mpr (by omega)).symm
      rw [hcmp.symm]
      rfl
    | gt =>
      rw [Nat.compare_eq_gt] at h
      have hvw : w < v := by
        have h2 : 256 ^ k * (w / 256 ^ k + 1) ≤ 256 ^ k * (v / 256 ^ k) :=
          Nat.mul_le_mul_left _ (by omega)
        have hx : 256 ^ k * (w / 256 ^ k + 1) =
            256 ^ k * (w / 256 ^ k) + 256 ^ k := by ring
        omega
      rw [(Nat.compare_eq_gt).mpr hvw]
      rfl

lemma lexCmp_gt_of_longer : ∀ (m l : List Nat), m.length < l.length →
    lexCmp l m = (lexCmp (l.take m.length) m).then .gt := by
  intro m
  induction m with
  | nil =>
    intro l hl
    cases l with
    | nil => simp at hl
    | cons a as => rfl
  | cons b bs ih =>
    intro l hl
    cases l with
    | nil => simp at hl
    | cons a as =>
      simp only [lexCmp, List.length_cons, List.take_succ_cons,
        ih as (by simpa using hl), ordering_then_assoc]

lemma listLe_toBE4 (label : List Nat) (h32 : label.length = 32)
    (hb : ∀ b ∈ label, b < 256) (v : Nat) (hv : v < 2 ^ 32) :
    listLe label (toBE 4 v) = decide (first4BE label < v) := by
  have hlen4 : (toBE 4 v).length = 4 := toBE_length 4 v
  have htake : (label.take 4).length = 4 := by
    simp [List.length_take, h32]
  have hb4 : ∀ b ∈ label.take 4, b < 256 := fun b hb' => hb b (List.mem_of_mem_take hb')
  have hrepr : label.take 4 = toBE 4 (first4BE label) := by
    have := toBE_beVal (label.take 4) hb4
    rw [htake] at this
    exact this.symm
  have hf4 : first4BE label < 256 ^ 4 := by
    have := beVal_lt (label.take 4) hb4
    rwa [htake] at this
  have hpow : (256 : Nat) ^ 4 = 2 ^ 32 := by norm_num
  have hv' : v < 256 ^ 4 := by rw [hpow]; exact hv
  have hmain : lexCmp label (toBE 4 v) =
      (compare (first4BE label) v).then .gt := by
    rw [show lexCmp label (toBE 4 v) = (lexCmp (label.take 4) (toBE 4 v)).then .gt from by
        have := lexCmp_gt_of_longer (toBE 4 v) label (by omega)
        rwa [hlen4] at this]
    rw [hrepr, toBE_compare 4 _ _ hf4 hv']
  rw [listLe, hmain]
  cases h : compare (first4BE label) v with
  | lt => rw [Nat.compare_eq_lt] at h; simp [Ordering.then, h]
  | eq => rw [Nat.compare_eq_eq] at h; simp [Ordering.then, h]
  | gt =>
    rw [Nat.compare_eq_gt] at h
    have hnot : ¬ first4BE label < v := by omega
    simp [Ordering.then, hnot]

lemma markerVal_lt (k i : Nat) (hk1 : 1 ≤ k) (hik : i < k) :
    markerVal k i < 2 ^ 32 := by
  have h1 : U32MAX / k * (i + 1) ≤ U32MAX / k * k :=
    Nat.mul_le_mul_left _ (by omega)
  have h2 : U32MAX / k * k ≤ U32MAX := Nat.div_mul_le_self _ _
  have : U32MAX < 2 ^ 32 := by norm_num [U32MAX]
  calc markerVal k i ≤ U32MAX / k * k := h1
    _ ≤ U32MAX := h2
    _ < 2 ^ 32 := this

lemma label_marker_eq (i k : Nat) (hik : i < k) (hk : k < 2 ^ 32) :
    label_marker i k = toBE 4 (markerVal k i) := by
  have hk1 : 1 ≤ k := by omega
  have hkm : k % 2 ^ 32 = k := Nat.mod_eq_of_lt hk
  have him : i % 2 ^ 32 = i := Nat.mod_eq_of_lt (by omega)
  have hmv : markerVal k i < 2 ^ 32 := markerVal_lt k i hk1 hik
  rw [label_marker, hkm, him]
  rw [show U32MAX / k * (i + 1) % 2 ^ 32 = markerVal k i from by
    rw [markerVal] at hmv ⊢; exact Nat.mod_eq_of_lt hmv]

end MarkerLemmas

section BucketTheorems

lemma bucketIdxGo_range' (label : List Nat) (h32 : label.length = 32)
    (hb : ∀ b ∈ label, b < 256) (k : Nat) (hk : k < 2 ^ 32) :
    ∀ (n a : Nat), a + n ≤ k →
    bucketIdxGo label ((List.range' a n).map fun i => label_marker i k) a =
      (match (List.range' a n).find? (fun i => first4BE label < markerVal k i) with
       | some i => i
       | none => 0) := by
  intro n
  induction n with
  | zero => intro a _; rfl
  | succ n ih =>
    intro a ha
    have hak : a < k := by omega
    have hmv : markerVal k a < 2 ^ 32 := markerVal_lt k a (by omega) hak
    have hle : listLe label (label_marker a k) =
        decide (first4BE label < markerVal k a) := by
      rw [label_marker_eq a k hak hk]
      exact listLe_toBE4 label h32 hb _ hmv
    rw [List.range'_succ, List.map_cons, List.find?_cons]
    simp only [bucketIdxGo, hle]
    cases hdec : decide (first4BE label < markerVal k a) with
    | true => simp
    | false =>
      simp only [Bool.false_eq_true, if_false]
      exact ih (a + 1) (by omega)

/-- Claim C5 (amended): `bucket_idx(label, partitions(k))` returns the smallest
`i < k` such that the first four bytes of the 32-byte label, read big-endian,
are STRICTLY below `(u32::MAX / k)·(i+1)` (not `≤ (2^32/k)·(i+1)` as claimed),
and `0` when no marker is above the label's prefix. -/
theorem bucket_idx_amended (label : List Nat) (k : Nat)
    (h32 : label.length = 32) (hb : ∀ b ∈ label, b < 256)
    (hk : k < 2 ^ 32) :
    bucket_idx label (partitions k) = amendedBucketOf label k := by
  rw [bucket_idx, partitions, amendedBucketOf, List.range_eq_range']
  exact bucketIdxGo_range' label h32 hb k hk k 0 (by omega)

/-- Witness: `bucket_idx_amended` at a concrete label and bucket count. -/
theorem bucket_idx_amended_witness :
    bucket_idx (128 :: List.replicate 31 0) (partitions 2) =
      amendedBucketOf (128 :: List.replicate 31 0) 2 :=
  bucket_idx_amended (128 :: List.replicate 31 0) 2 (by decide)
    (by decide) (by norm_num)

/-- Claim C5 (counterexample): take `k = 2` and the label `80 00 00 00 ‖ 0²⁸`.
Its first four bytes equal the claim's `marker(0) = 2^32/2`, so the claim
assigns bucket 0, but `bucket_idx` assigns bucket 1: the code compares the
whole 32-byte label against the 4-byte marker (so a label whose prefix equals
the marker compares greater), and its markers are `(2^32−1)/k · (i+1)`, not
`(2^32/k)·(i+1)`. -/
theorem bucket_idx_claim_cex :
    first4BE (128 :: List.replicate 31 0) = claimMarkerVal 2 0 ∧
    claimBucketOf (128 :: List.replicate 31 0) 2 = some 0 ∧
    bucket_idx (128 :: List.replicate 31 0) (partitions 2) = 1 := by
  refine ⟨by decide, by decide, by decide⟩

/-- Claim C6 (amended): for `1 ≤ k < 2^32` the markers are strictly increasing
(numerically and bytewise), and every 32-byte label is assigned a bucket index
below `k`; but the union of the intervals `[0, marker(i)]` need not cover the
whole 32-bit prefix space — labels above the last marker fall through to
bucket 0 (see the counterexample). -/
theorem marker_mono_and_assign (k : Nat) (hk1 : 1 ≤ k) (hk : k < 2 ^ 32) :
    (∀ i j, i < j → j < k →
      markerVal k i < markerVal k j ∧
        lexCmp (label_marker i k) (label_marker j k) = .lt) ∧
    (∀ label : List Nat, label.length = 32 → (∀ b ∈ label, b < 256) →
      bucket_idx label (partitions k) < k) := by
  have hq : 1 ≤ U32MAX / k := by
    have hkle : k ≤ U32MAX := by
      have : U32MAX = 2 ^ 32 - 1 := rfl
      omega
    exact (Nat.one_le_div_iff (by omega)).mpr hkle
  constructor
  · intro i j hij hjk
    have hval : markerVal k i < markerVal k j := by
      have h1 : U32MAX / k * (i + 2) ≤ U32MAX / k * (j + 1) :=
        Nat.mul_le_mul_left _ (by omega)
      have h2 : U32MAX / k * (i + 2) = U32MAX / k * (i + 1) + U32MAX / k := by
        ring
      rw [markerVal, markerVal]
      omega
    refine ⟨hval, ?_⟩
    have hpow : (256 : Nat) ^ 4 = 2 ^ 32 := by norm_num
    rw [label_marker_eq i k (by omega) hk, label_marker_eq j k hjk hk,
      toBE_compare 4 _ _ (by rw [hpow]; exact markerVal_lt k i hk1 (by omega))
        (by rw [hpow]; exact markerVal_lt k j hk1 hjk)]
    exact (Nat.compare_eq_lt).mpr hval
  · intro label h32 hb
    rw [bucket_idx_amended label k h32 hb hk, amendedBucketOf]
    cases hf : (List.range k).find? (fun i => first4BE label < markerVal k i) with
    | none => simpa using hk1
    | some i =>
      have : i ∈ List.range k := List.mem_of_find?_eq_some hf
      simpa using List.mem_range.mp this

/-- Witness: `marker_mono_and_assign` at `k = 2`, `i = 0`, `j = 1`. -/
theorem marker_mono_and_assign_witness :
    markerVal 2 0 < markerVal 2 1 :=
  ((marker_mono_and_assign 2 (by norm_num) (by norm_num)).1 0 1
    (by norm_num) (by norm_num)).1

/-- Claim C6 (counterexample): with `k = 2` buckets, the last marker is
`FF FF FF FE`, not the maximum 4-byte value, and the all-`FF` label is `≤` no
marker at all — the claimed coverage `⋃ᵢ [0, marker(i)] = full space` fails
(the label is still assigned bucket 0, but only by `bucket_idx`'s fall-through
default). -/
theorem marker_coverage_cex :
    label_marker 1 2 = [255, 255, 255, 254] ∧
    (∀ i, i < 2 → listLe (List.replicate 32 255) (label_marker i 2) = false) ∧
    bucket_idx (List.replicate 32 255) (partitions 2) = 0 := by
  refine ⟨by decide, by decide, by decide⟩

end BucketTheorems

section BfsLemmas

lemma intervalsWeight_cons (p : Nat × Nat) (q : List (Nat × Nat)) :
    intervalsWeight (p :: q) = (p.2 - p.1 + 1) + intervalsWeight q := by
  simp [intervalsWeight]

lemma bstChildren_weight_eq {α : Type} (l : List α) (s e : Nat)
    (hse : s ≤ e) (hel : e < l.length) :
    intervalsWeight (bstChildren l s e) = e - s := by
  have hf := find_idx_lt (e - s + 1) (by omega)
  simp only [bstChildren, intervalsWeight, List.map_append, List.sum_append]
  split_ifs with h1 h2 h2 <;>
    simp only [List.map_cons, List.map_nil, List.sum_cons, List.sum_nil] <;>
    omega

lemma bstChildren_valid {α : Type} (l : List α) (s e : Nat)
    (hse : s ≤ e) (hel : e < l.length) :
    ∀ p ∈ bstChildren l s e, p.1 ≤ p.2 ∧ p.2 < l.length := by
  have hf := find_idx_lt (e - s + 1) (by omega)
  intro p hp
  rcases List.mem_append.mp hp with hp | hp <;> split_ifs at hp with h1
  · rw [List.mem_singleton] at hp
    subst hp
    refine ⟨?_, ?_⟩
    · show s ≤ s + find_idx (e - s + 1) - 1
      omega
    · show s + find_idx (e - s + 1) - 1 < l.length
      omega
  · simp at hp
  · rw [List.mem_singleton] at hp
    subst hp
    refine ⟨?_, ?_⟩
    · show s + find_idx (e - s + 1) + 1 ≤ e
      omega
    · show e < l.length
      omega
  · simp at hp

lemma bstBfs_sound {α : Type} (l : List α) : ∀ (w : Nat) (q : List (Nat × Nat)),
    intervalsWeight q ≤ w →
    (∀ p ∈ q, p.1 ≤ p.2 ∧ p.2 < l.length) →
    ∃ out, bstBfs l q = some out ∧ out.length = intervalsWeight q ∧
      ∀ x ∈ out, x ∈ l := by
  intro w
  induction w with
  | zero =>
    intro q hw _
    cases q with
    | nil => exact ⟨[], by rw [bstBfs], by simp [intervalsWeight], by simp⟩
    | cons p q =>
      exfalso
      rw [intervalsWeight_cons] at hw
      omega
  | succ w ih =>
    intro q hw hq
    cases q with
    | nil => exact ⟨[], by rw [bstBfs], by simp [intervalsWeight], by simp⟩
    | cons p q =>
      obtain ⟨s, e⟩ := p
      have hse := hq (s, e) (List.mem_cons_self _ _)
      simp only at hse
      have hfi : find_idx (e - s + 1) < e - s + 1 := find_idx_lt _ (by omega)
      have hidx : s + find_idx (e - s + 1) < l.length := by omega
      have hq' : ∀ p ∈ q ++ bstChildren l s e, p.1 ≤ p.2 ∧ p.2 < l.length := by
        intro p hp
        rcases List.mem_append.mp hp with hp | hp
        · exact hq p (List.mem_cons_of_mem _ hp)
        · exact bstChildren_valid l s e hse.1 hse.2 p hp
      have hwq' : intervalsWeight (q ++ bstChildren l s e) =
          intervalsWeight q + (e - s) := by
        rw [intervalsWeight_append, bstChildren_weight_eq l s e hse.1 hse.2]
      have hwle : intervalsWeight (q ++ bstChildren l s e) ≤ w := by
        rw [hwq']
        rw [intervalsWeight_cons] at hw
        simp only at hw
        omega
      obtain ⟨rest, hrest, hlen, hmem⟩ := ih _ hwle hq'
      refine ⟨l[s + find_idx (e - s + 1)] :: rest, ?_, ?_, ?_⟩
      · rw [bstBfs, List.getElem?_eq_getElem hidx]
        rw [hrest]
      · rw [List.length_cons, hlen, hwq', intervalsWeight_cons]
        simp only
        omega
      · intro x hx
        rw [List.mem_cons] at hx
        rcases hx with rfl | hx
        · exact List.getElem_mem hidx
        · exact hmem x hx

lemma as_bst_order_some {α : Type} (l : List α) (hne : l ≠ []) :
    ∃ out, as_bst_order l = some out ∧ out.length = l.length ∧
      ∀ x ∈ out, x ∈ l := by
  have hlen : 1 ≤ l.length := by
    cases l with
    | nil => simp at hne
    | cons a as => simp
  have hval : ∀ p ∈ [((0 : Nat), l.length - 1)], p.1 ≤ p.2 ∧ p.2 < l.length := by
    intro p hp
    rw [List.mem_singleton] at hp
    subst hp
    refine ⟨Nat.zero_le _, ?_⟩
    show l.length - 1 < l.length
    omega
  obtain ⟨out, hout, hlen', hmem⟩ :=
    bstBfs_sound l (intervalsWeight [(0, l.length - 1)]) [(0, l.length - 1)]
      le_rfl hval
  refine ⟨out, ?_, ?_, hmem⟩
  · rw [as_bst_order, if_neg (by simpa [List.isEmpty_iff] using hne)]
    exact hout
  · rw [hlen']
    simp [intervalsWeight]
    omega

lemma applyRet_facts (ret : RetScheme) (c c' : List PungTuple)
    (h : applyRet ret c = some c') :
    c'.length = c.length ∧ ∀ x ∈ c', x ∈ c := by
  rw [applyRet] at h
  split_ifs at h with h1
  · by_cases hne : c = []
    · subst hne
      simp [as_bst_order, List.isEmpty] at h
    · obtain ⟨out, hout, hlen, hmem⟩ := as_bst_order_some c hne
      rw [hout] at h
      cases h
      exact ⟨hlen, hmem⟩
  · cases h
    exact ⟨rfl, fun x hx => hx⟩

end BfsLemmas

section Hybrid4Lemmas

lemma insertTuple_perm (t : PungTuple) : ∀ ts : List PungTuple,
    (insertTuple t ts).Perm (t :: ts) := by
  intro ts
  induction ts with
  | nil => exact List.Perm.refl _
  | cons u us ih =>
    rw [insertTuple]
    split_ifs with h
    · exact List.Perm.refl _
    · exact (ih.cons u).trans (List.Perm.swap t u us)

lemma sortTuples_perm : ∀ ts : List PungTuple, (sortTuples ts).Perm ts := by
  intro ts
  induction ts with
  | nil => exact List.Perm.refl _
  | cons t ts ih =>
    rw [sortTuples]
    exact (insertTuple_perm t (sortTuples ts)).trans (ih.cons t)

lemma tuple_ext_iff (a b : PungTuple) : a = b ↔ a.data = b.data := by
  cases a
  cases b
  simp

lemma pxor_data (a b : PungTuple) :
    (a.pxor b).data = List.zipWith Nat.xor a.data b.data := rfl

lemma zero_data : PungTuple.zero.data = List.replicate TUPLE_SIZE 0 := rfl

lemma nat_xor_left_comm (a b c : Nat) : a ^^^ (b ^^^ c) = b ^^^ (a ^^^ c) := by
  rw [← Nat.xor_assoc, Nat.xor_comm a b, Nat.xor_assoc]

lemma nxor_zero_left (x : Nat) : Nat.xor 0 x = x := Nat.zero_xor x

lemma nxor_zero_right (x : Nat) : Nat.xor x 0 = x := Nat.xor_zero x

lemma nxor_self (x : Nat) : Nat.xor x x = 0 := Nat.xor_self x

lemma nxor_assoc (a b c : Nat) :
    Nat.xor (Nat.xor a b) c = Nat.xor a (Nat.xor b c) := Nat.xor_assoc a b c

lemma nxor_comm (a b : Nat) : Nat.xor a b = Nat.xor b a := Nat.xor_comm a b

lemma nxor_left_comm (a b c : Nat) :
    Nat.xor a (Nat.xor b c) = Nat.xor b (Nat.xor a c) := nat_xor_left_comm a b c

lemma nxor_cancel_left (a b : Nat) :
    Nat.xor a (Nat.xor a b) = b := Nat.xor_cancel_left a b

lemma zero_pxor (a : PungTuple) (h : a.data.length = TUPLE_SIZE) :
    PungTuple.zero.pxor a = a := by
  rw [tuple_ext_iff, pxor_data, zero_data]
  apply List.ext_getElem
  · simp [List.length_zipWith, h]
  · intro j h1 h2
    simp only [List.getElem_zipWith, List.getElem_replicate]
    exact Nat.zero_xor _

lemma xorZipPad_length (a b : List PungTuple) (h : a.length ≤ b.length + 1) :
    (xorZipPad a b).length = a.length := by
  rw [xorZipPad]
  split_ifs with h1 <;>
    simp only [List.length_zipWith, List.length_append, List.length_cons,
      List.length_nil, ne_eq] at h1 ⊢ <;>
    omega

lemma getD_mem {α : Type} (l : List α) (i : Nat) (d : α) (h : i < l.length) :
    l.getD i d ∈ l := by
  rw [List.getD_eq_getElem _ _ h]
  exact List.getElem_mem h

lemma xorZipPad_getD (a b : List PungTuple) (hge : b.length ≤ a.length)
    (hle : a.length ≤ b.length + 1) (i : Nat) (hi : i < a.length) :
    (xorZipPad a b).getD i PungTuple.zero =
      if i < b.length then
        (a.getD i PungTuple.zero).pxor (b.getD i PungTuple.zero)
      else a.getD i PungTuple.zero := by
  have hzlen : (List.zipWith PungTuple.pxor a b).length = b.length := by
    simp [List.length_zipWith]
    omega
  rw [xorZipPad]
  by_cases hib : i < b.length
  · rw [if_pos hib]
    have hiz : i < (List.zipWith PungTuple.pxor a b).length := by omega
    have hval : (List.zipWith PungTuple.pxor a b).getD i PungTuple.zero =
        (a.getD i PungTuple.zero).pxor (b.getD i PungTuple.zero) := by
      rw [List.getD_eq_getElem _ _ hiz, List.getElem_zipWith,
        List.getD_eq_getElem _ _ (by omega), List.getD_eq_getElem _ _ (by omega)]
    split_ifs with h1
    · rw [List.getD_eq_getElem _ _ (by simp [List.length_append]; omega),
        List.getElem_append_left hiz, ← List.getD_eq_getElem _ _ hiz, hval]
    · rw [hval]
  · rw [if_neg hib]
    have h1 : (List.zipWith PungTuple.pxor a b).length ≠ a.length := by omega
    rw [if_pos h1]
    have hieq : i = b.length := by omega
    have halen : a.length = b.length + 1 := by omega
    rw [List.getD_eq_getElem _ _ (by simp [List.length_append]; omega),
      List.getElem_append_right (by omega)]
    have hzero : i - (List.zipWith PungTuple.pxor a b).length = 0 := by omega
    simp only [hzero, List.getElem_cons_zero]
    rw [List.getLastD_eq_getLast?, List.getLast?_eq_getElem?]
    rw [List.getD_eq_getElem?_getD, show a.length - 1 = i by omega]


lemma shape_list2a : ∀ (la lb : List Nat), la.length = lb.length →
    List.zipWith Nat.xor lb (List.zipWith Nat.xor la lb) = la := by
  intro la
  induction la with
  | nil =>
    intro lb hb
    have eb : lb = [] := by
      cases lb with
      | nil => rfl
      | cons y ys => simp at hb
    subst eb
    rfl
  | cons x la ih =>
    intro lb hb
    cases lb with
    | nil => simp at hb
    | cons y lb =>
    simp only [List.zipWith_cons_cons, List.cons.injEq]
    refine ⟨?_, ih lb (by simpa using hb)⟩
    simp only [nxor_zero_left, nxor_zero_right, nxor_assoc, nxor_comm,
      nxor_left_comm, nxor_self, nxor_cancel_left]

lemma shape_list2b : ∀ (la lb : List Nat), la.length = lb.length →
    List.zipWith Nat.xor la (List.zipWith Nat.xor la lb) = lb := by
  intro la
  induction la with
  | nil =>
    intro lb hb
    have eb : lb = [] := by
      cases lb with
      | nil => rfl
      | cons y ys => simp at hb
    subst eb
    rfl
  | cons x la ih =>
    intro lb hb
    cases lb with
    | nil => simp at hb
    | cons y lb =>
    simp only [List.zipWith_cons_cons, List.cons.injEq]
    refine ⟨?_, ih lb (by simpa using hb)⟩
    simp only [nxor_zero_left, nxor_zero_right, nxor_assoc, nxor_comm,
      nxor_left_comm, nxor_self, nxor_cancel_left]

lemma shape_list4a : ∀ (la lb lc ld : List Nat), la.length = lb.length → la.length = lc.length → la.length = ld.length →
    List.zipWith Nat.xor (List.zipWith Nat.xor (List.zipWith Nat.xor ld (List.zipWith Nat.xor lc ld)) (List.zipWith Nat.xor lb ld)) (List.zipWith Nat.xor (List.zipWith Nat.xor la lc) (List.zipWith Nat.xor lb ld)) = la := by
  intro la
  induction la with
  | nil =>
    intro lb lc ld hb hc hd
    have eb : lb = [] := by
      cases lb with
      | nil => rfl
      | cons y ys => simp at hb
    have ec : lc = [] := by
      cases lc with
      | nil => rfl
      | cons y ys => simp at hc
    have ed : ld = [] := by
      cases ld with
      | nil => rfl
      | cons y ys => simp at hd
    subst eb
    subst ec
    subst ed
    rfl
  | cons x la ih =>
    intro lb lc ld hb hc hd
    cases lb with
    | nil => simp at hb
    | cons y lb =>
    cases lc with
    | nil => simp at hc
    | cons z lc =>
    cases ld with
    | nil => simp at hd
    | cons w ld =>
    simp only [List.zipWith_cons_cons, List.cons.injEq]
    refine ⟨?_, ih lb lc ld (by simpa using hb) (by simpa using hc) (by simpa using hd)⟩
    simp only [nxor_zero_left, nxor_zero_right, nxor_assoc, nxor_comm,
      nxor_left_comm, nxor_self, nxor_cancel_left]

lemma shape_list4b : ∀ (la lb lc ld : List Nat), la.length = lb.length → la.length = lc.length → la.length = ld.length →
    List.zipWith Nat.xor (List.zipWith Nat.xor (List.zipWith Nat.xor la (List.zipWith Nat.xor la lb)) (List.zipWith Nat.xor la lc)) (List.zipWith Nat.xor (List.zipWith Nat.xor la lc) (List.zipWith Nat.xor lb ld)) = ld := by
  intro la
  induction la with
  | nil =>
    intro lb lc ld hb hc hd
    have eb : lb = [] := by
      cases lb with
      | nil => rfl
      | cons y ys => simp at hb
    have ec : lc = [] := by
      cases lc with
      | nil => rfl
      | cons y ys => simp at hc
    have ed : ld = [] := by
      cases ld with
      | nil => rfl
      | cons y ys => simp at hd
    subst eb
    subst ec
    subst ed
    rfl
  | cons x la ih =>
    intro lb lc ld hb hc hd
    cases lb with
    | nil => simp at hb
    | cons y lb =>
    cases lc with
    | nil => simp at hc
    | cons z lc =>
    cases ld with
    | nil => simp at hd
    | cons w ld =>
    simp only [List.zipWith_cons_cons, List.cons.injEq]
    refine ⟨?_, ih lb lc ld (by simpa using hb) (by simpa using hc) (by simpa using hd)⟩
    simp only [nxor_zero_left, nxor_zero_right, nxor_assoc, nxor_comm,
      nxor_left_comm, nxor_self, nxor_cancel_left]

lemma shape_list4c : ∀ (la lb lc ld : List Nat), la.length = lb.length → la.length = lc.length → la.length = ld.length →
    List.zipWith Nat.xor (List.zipWith Nat.xor (List.zipWith Nat.xor lc (List.zipWith Nat.xor lc ld)) (List.zipWith Nat.xor la lc)) (List.zipWith Nat.xor (List.zipWith Nat.xor la lc) (List.zipWith Nat.xor lb ld)) = lb := by
  intro la
  induction la with
  | nil =>
    intro lb lc ld hb hc hd
    have eb : lb = [] := by
      cases lb with
      | nil => rfl
      | cons y ys => simp at hb
    have ec : lc = [] := by
      cases lc with
      | nil => rfl
      | cons y ys => simp at hc
    have ed : ld = [] := by
      cases ld with
      | nil => rfl
      | cons y ys => simp at hd
    subst eb
    subst ec
    subst ed
    rfl
  | cons x la ih =>
    intro lb lc ld hb hc hd
    cases lb with
    | nil => simp at hb
    | cons y lb =>
    cases lc with
    | nil => simp at hc
    | cons z lc =>
    cases ld with
    | nil => simp at hd
    | cons w ld =>
    simp only [List.zipWith_cons_cons, List.cons.injEq]
    refine ⟨?_, ih lb lc ld (by simpa using hb) (by simpa using hc) (by simpa using hd)⟩
    simp only [nxor_zero_left, nxor_zero_right, nxor_assoc, nxor_comm,
      nxor_left_comm, nxor_self, nxor_cancel_left]

lemma shape_list4d : ∀ (la lb lc : List Nat), la.length = lb.length → la.length = lc.length →
    List.zipWith Nat.xor (List.zipWith Nat.xor (List.zipWith Nat.xor lc lc) (List.zipWith Nat.xor la lc)) (List.zipWith Nat.xor (List.zipWith Nat.xor la lc) lb) = lb := by
  intro la
  induction la with
  | nil =>
    intro lb lc hb hc
    have eb : lb = [] := by
      cases lb with
      | nil => rfl
      | cons y ys => simp at hb
    have ec : lc = [] := by
      cases lc with
      | nil => rfl
      | cons y ys => simp at hc
    subst eb
    subst ec
    rfl
  | cons x la ih =>
    intro lb lc hb hc
    cases lb with
    | nil => simp at hb
    | cons y lb =>
    cases lc with
    | nil => simp at hc
    | cons z lc =>
    simp only [List.zipWith_cons_cons, List.cons.injEq]
    refine ⟨?_, ih lb lc (by simpa using hb) (by simpa using hc)⟩
    simp only [nxor_zero_left, nxor_zero_right, nxor_assoc, nxor_comm,
      nxor_left_comm, nxor_self, nxor_cancel_left]

lemma shape_list4e : ∀ (la lb lc ld : List Nat), la.length = lb.length → la.length = lc.length → la.length = ld.length →
    List.zipWith Nat.xor (List.zipWith Nat.xor (List.zipWith Nat.xor lb (List.zipWith Nat.xor la lb)) (List.zipWith Nat.xor lb ld)) (List.zipWith Nat.xor (List.zipWith Nat.xor la lc) (List.zipWith Nat.xor lb ld)) = lc := by
  intro la
  induction la with
  | nil =>
    intro lb lc ld hb hc hd
    have eb : lb = [] := by
      cases lb with
      | nil => rfl
      | cons y ys => simp at hb
    have ec : lc = [] := by
      cases lc with
      | nil => rfl
      | cons y ys => simp at hc
    have ed : ld = [] := by
      cases ld with
      | nil => rfl
      | cons y ys => simp at hd
    subst eb
    subst ec
    subst ed
    rfl
  | cons x la ih =>
    intro lb lc ld hb hc hd
    cases lb with
    | nil => simp at hb
    | cons y lb =>
    cases lc with
    | nil => simp at hc
    | cons z lc =>
    cases ld with
    | nil => simp at hd
    | cons w ld =>
    simp only [List.zipWith_cons_cons, List.cons.injEq]
    refine ⟨?_, ih lb lc ld (by simpa using hb) (by simpa using hc) (by simpa using hd)⟩
    simp only [nxor_zero_left, nxor_zero_right, nxor_assoc, nxor_comm,
      nxor_left_comm, nxor_self, nxor_cancel_left]

lemma shape_list4f : ∀ (la lb lc : List Nat), la.length = lb.length → la.length = lc.length →
    List.zipWith Nat.xor (List.zipWith Nat.xor (List.zipWith Nat.xor lb (List.zipWith Nat.xor la lb)) lb) (List.zipWith Nat.xor (List.zipWith Nat.xor la lc) lb) = lc := by
  intro la
  induction la with
  | nil =>
    intro lb lc hb hc
    have eb : lb = [] := by
      cases lb with
      | nil => rfl
      | cons y ys => simp at hb
    have ec : lc = [] := by
      cases lc with
      | nil => rfl
      | cons y ys => simp at hc
    subst eb
    subst ec
    rfl
  | cons x la ih =>
    intro lb lc hb hc
    cases lb with
    | nil => simp at hb
    | cons y lb =>
    cases lc with
    | nil => simp at hc
    | cons z lc =>
    simp only [List.zipWith_cons_cons, List.cons.injEq]
    refine ⟨?_, ih lb lc (by simpa using hb) (by simpa using hc)⟩
    simp only [nxor_zero_left, nxor_zero_right, nxor_assoc, nxor_comm,
      nxor_left_comm, nxor_self, nxor_cancel_left]

lemma txor2a (a b : PungTuple) (ha : a.data.length = TUPLE_SIZE) (hb : b.data.length = TUPLE_SIZE) :
    b.pxor (a.pxor b) = a := by
  rw [tuple_ext_iff]
  simp only [pxor_data]
  exact shape_list2a a.data b.data (by omega)

lemma txor2b (a b : PungTuple) (ha : a.data.length = TUPLE_SIZE) (hb : b.data.length = TUPLE_SIZE) :
    a.pxor (a.pxor b) = b := by
  rw [tuple_ext_iff]
  simp only [pxor_data]
  exact shape_list2b a.data b.data (by omega)

lemma txor4a (a b c d : PungTuple) (ha : a.data.length = TUPLE_SIZE) (hb : b.data.length = TUPLE_SIZE) (hc : c.data.length = TUPLE_SIZE) (hd : d.data.length = TUPLE_SIZE) :
    ((d.pxor (c.pxor d)).pxor (b.pxor d)).pxor ((a.pxor c).pxor (b.pxor d)) = a := by
  rw [tuple_ext_iff]
  simp only [pxor_data]
  exact shape_list4a a.data b.data c.data d.data (by omega) (by omega) (by omega)

lemma txor4b (a b c d : PungTuple) (ha : a.data.length = TUPLE_SIZE) (hb : b.data.length = TUPLE_SIZE) (hc : c.data.length = TUPLE_SIZE) (hd : d.data.length = TUPLE_SIZE) :
    ((a.pxor (a.pxor b)).pxor (a.pxor c)).pxor ((a.pxor c).pxor (b.pxor d)) = d := by
  rw [tuple_ext_iff]
  simp only [pxor_data]
  exact shape_list4b a.data b.data c.data d.data (by omega) (by omega) (by omega)

lemma txor4c (a b c d : PungTuple) (ha : a.data.length = TUPLE_SIZE) (hb : b.data.length = TUPLE_SIZE) (hc : c.data.length = TUPLE_SIZE) (hd : d.data.length = TUPLE_SIZE) :
    ((c.pxor (c.pxor d)).pxor (a.pxor c)).pxor ((a.pxor c).pxor (b.pxor d)) = b := by
  rw [tuple_ext_iff]
  simp only [pxor_data]
  exact shape_list4c a.data b.data c.data d.data (by omega) (by omega) (by omega)

lemma txor4d (a b c : PungTuple) (ha : a.data.length = TUPLE_SIZE) (hb : b.data.length = TUPLE_SIZE) (hc : c.data.length = TUPLE_SIZE) :
    ((c.pxor c).pxor (a.pxor c)).pxor ((a.pxor c).pxor b) = b := by
  rw [tuple_ext_iff]
  simp only [pxor_data]
  exact shape_list4d a.data b.data c.data (by omega) (by omega)

lemma txor4e (a b c d : PungTuple) (ha : a.data.length = TUPLE_SIZE) (hb : b.data.length = TUPLE_SIZE) (hc : c.data.length = TUPLE_SIZE) (hd : d.data.length = TUPLE_SIZE) :
    ((b.pxor (a.pxor b)).pxor (b.pxor d)).pxor ((a.pxor c).pxor (b.pxor d)) = c := by
  rw [tuple_ext_iff]
  simp only [pxor_data]
  exact shape_list4e a.data b.data c.data d.data (by omega) (by omega) (by omega)

lemma txor4f (a b c : PungTuple) (ha : a.data.length = TUPLE_SIZE) (hb : b.data.length = TUPLE_SIZE) (hc : c.data.length = TUPLE_SIZE) :
    ((b.pxor (a.pxor b)).pxor b).pxor ((a.pxor c).pxor b) = c := by
  rw [tuple_ext_iff]
  simp only [pxor_data]
  exact shape_list4f a.data b.data c.data (by omega) (by omega)

/-- Claim C3: Hybrid4 batch-code soundness.  After `Bucket::encode` under
`Hybrid4` (any retrieval scheme), for every home collection `c ∈ {0,1,2,3}`,
every reconstruction subset listed in `h4_mappings c`, and every index `i`
below the home collection's length that is in range for every part of the
subset, the XOR of the parts' tuples at index `i` equals the home collection's
tuple at `i`. -/
theorem hybrid4_batch_soundness (ret : RetScheme) (ts : List PungTuple)
    (hts : ∀ t ∈ ts, t.data.length = TUPLE_SIZE) (cs : List (List PungTuple))
    (henc : encodeHybrid4 ret ts = some cs) :
    ∀ c, c < 4 → ∀ parts ∈ h4_mappings c, ∀ i,
      i < (cs.getD c []).length →
      (∀ p ∈ parts, i < (cs.getD p []).length) →
      xorList (parts.map fun p => (cs.getD p []).getD i PungTuple.zero) =
        (cs.getD c []).getD i PungTuple.zero := by
  rw [encodeHybrid4] at henc
  cases h0 : applyRet ret (h4Split0 ts) with
  | none => rw [h0] at henc; exact Option.noConfusion henc
  | some c0 =>
  cases h1 : applyRet ret (h4Split1 ts) with
  | none => rw [h0, h1] at henc; exact Option.noConfusion henc
  | some c1 =>
  cases h2 : applyRet ret (h4Split2 ts) with
  | none => rw [h0, h1, h2] at henc; exact Option.noConfusion henc
  | some c2 =>
  cases h3 : applyRet ret (h4Split3 ts) with
  | none => rw [h0, h1, h2, h3] at henc; exact Option.noConfusion henc
  | some c3 =>
  rw [h0, h1, h2, h3] at henc
  have hcs : [c0, c1, c2, c3, xorZipPad c0 c1, xorZipPad c2 c3, xorZipPad c0 c2,
      xorZipPad c1 c3, xorZipPad (xorZipPad c0 c2) (xorZipPad c1 c3)] = cs :=
    Option.some.inj henc
  subst hcs
  have hf0 := applyRet_facts ret _ _ h0
  have hf1 := applyRet_facts ret _ _ h1
  have hf2 := applyRet_facts ret _ _ h2
  have hf3 := applyRet_facts ret _ _ h3
  have hFront : (h4Front ts).length =
      min (((sortTuples ts).length + 1) / 2) (sortTuples ts).length := by
    simp [h4Front]
  have hBack : (h4Back ts).length =
      (sortTuples ts).length - ((sortTuples ts).length + 1) / 2 := by
    simp [h4Back]
  have hS0 : (h4Split0 ts).length =
      min (((h4Front ts).length + 1) / 2) (h4Front ts).length := by
    simp [h4Split0]
  have hS1 : (h4Split1 ts).length =
      (h4Front ts).length - ((h4Front ts).length + 1) / 2 := by
    simp [h4Split1]
  have hS2 : (h4Split2 ts).length =
      min (((h4Back ts).length + 1) / 2) (h4Back ts).length := by
    simp [h4Split2]
  have hS3 : (h4Split3 ts).length =
      (h4Back ts).length - ((h4Back ts).length + 1) / 2 := by
    simp [h4Split3]
  have hl0 : c0.length = (h4Split0 ts).length := hf0.1
  have hl1 : c1.length = (h4Split1 ts).length := hf1.1
  have hl2 : c2.length = (h4Split2 ts).length := hf2.1
  have hl3 : c3.length = (h4Split3 ts).length := hf3.1
  have hk10 : c1.length ≤ c0.length := by omega
  have hk01 : c0.length ≤ c1.length + 1 := by omega
  have hk32 : c3.length ≤ c2.length := by omega
  have hk23 : c2.length ≤ c3.length + 1 := by omega
  have hk20 : c2.length ≤ c0.length := by omega
  have hk02 : c0.length ≤ c2.length + 1 := by omega
  have hk31 : c3.length ≤ c1.length := by omega
  have hk13 : c1.length ≤ c3.length + 1 := by omega
  have hL6 : (xorZipPad c0 c2).length = c0.length := xorZipPad_length _ _ (by omega)
  have hL7 : (xorZipPad c1 c3).length = c1.length := xorZipPad_length _ _ (by omega)
  have hsorted : ∀ t ∈ sortTuples ts, t.data.length = TUPLE_SIZE := fun t ht =>
    hts t ((sortTuples_perm ts).subset ht)
  have hmem0 : ∀ t ∈ c0, t.data.length = TUPLE_SIZE := fun t ht =>
    hsorted t (List.mem_of_mem_take (List.mem_of_mem_take (hf0.2 t ht)))
  have hmem1 : ∀ t ∈ c1, t.data.length = TUPLE_SIZE := fun t ht =>
    hsorted t (List.mem_of_mem_take (List.mem_of_mem_drop (hf1.2 t ht)))
  have hmem2 : ∀ t ∈ c2, t.data.length = TUPLE_SIZE := fun t ht =>
    hsorted t (List.mem_of_mem_drop (List.mem_of_mem_take (hf2.2 t ht)))
  have hmem3 : ∀ t ∈ c3, t.data.length = TUPLE_SIZE := fun t ht =>
    hsorted t (List.mem_of_mem_drop (List.mem_of_mem_drop (hf3.2 t ht)))
  intro c hc parts hparts i hi hip
  interval_cases c
  · simp only [h4_mappings, List.mem_cons, List.not_mem_nil, or_false] at hparts
    rcases hparts with rfl | rfl | rfl | rfl
    · -- c = 0, parts = [0]
      have hhome : i < c0.length := hi
      have hthome : (c0.getD i PungTuple.zero).data.length = TUPLE_SIZE :=
        hmem0 _ (getD_mem _ _ _ hhome)
      show xorList [c0.getD i PungTuple.zero] = c0.getD i PungTuple.zero
      simp only [xorList, List.foldl_cons, List.foldl_nil]
      exact zero_pxor _ hthome
    · -- c = 0, parts = [1, 4]
      have hiH : i < c0.length := hi
      have hiO : i < c1.length := hip 1 (by simp)
      have htH : (c0.getD i PungTuple.zero).data.length = TUPLE_SIZE :=
        hmem0 _ (getD_mem _ _ _ hiH)
      have htO : (c1.getD i PungTuple.zero).data.length = TUPLE_SIZE :=
        hmem1 _ (getD_mem _ _ _ hiO)
      show xorList [c1.getD i PungTuple.zero,
          (xorZipPad c0 c1).getD i PungTuple.zero] = c0.getD i PungTuple.zero
      rw [xorZipPad_getD c0 c1 (by omega) (by omega) i (by omega),
        if_pos (show i < c1.length by omega)]
      simp only [xorList, List.foldl_cons, List.foldl_nil]
      rw [zero_pxor _ htO]
      exact txor2a _ _ htH htO
    · -- c = 0, parts = [2, 6]
      have hiH : i < c0.length := hi
      have hiO : i < c2.length := hip 2 (by simp)
      have htH : (c0.getD i PungTuple.zero).data.length = TUPLE_SIZE :=
        hmem0 _ (getD_mem _ _ _ hiH)
      have htO : (c2.getD i PungTuple.zero).data.length = TUPLE_SIZE :=
        hmem2 _ (getD_mem _ _ _ hiO)
      show xorList [c2.getD i PungTuple.zero,
          (xorZipPad c0 c2).getD i PungTuple.zero] = c0.getD i PungTuple.zero
      rw [xorZipPad_getD c0 c2 (by omega) (by omega) i (by omega),
        if_pos (show i < c2.length by omega)]
      simp only [xorList, List.foldl_cons, List.foldl_nil]
      rw [zero_pxor _ htO]
      exact txor2a _ _ htH htO
    · -- c = 0, parts = [3, 5, 7, 8]
      have hi0 : i < c0.length := hi
      have hi3 : i < c3.length := hip 3 (by simp)
      have ht0 : (c0.getD i PungTuple.zero).data.length = TUPLE_SIZE :=
        hmem0 _ (getD_mem _ _ _ hi0)
      have ht1 : (c1.getD i PungTuple.zero).data.length = TUPLE_SIZE :=
        hmem1 _ (getD_mem _ _ _ (by omega))
      have ht2 : (c2.getD i PungTuple.zero).data.length = TUPLE_SIZE :=
        hmem2 _ (getD_mem _ _ _ (by omega))
      have ht3 : (c3.getD i PungTuple.zero).data.length = TUPLE_SIZE :=
        hmem3 _ (getD_mem _ _ _ hi3)
      show xorList [c3.getD i PungTuple.zero,
          (xorZipPad c2 c3).getD i PungTuple.zero,
          (xorZipPad c1 c3).getD i PungTuple.zero,
          (xorZipPad (xorZipPad c0 c2) (xorZipPad c1 c3)).getD i PungTuple.zero] =
        c0.getD i PungTuple.zero
      rw [xorZipPad_getD (xorZipPad c0 c2) (xorZipPad c1 c3)
          (by rw [hL6, hL7]; omega) (by rw [hL6, hL7]; omega) i (by rw [hL6]; omega),
        if_pos (show i < (xorZipPad c1 c3).length by rw [hL7]; omega),
        xorZipPad_getD c0 c2 (by omega) (by omega) i (by omega),
        if_pos (show i < c2.length by omega),
        xorZipPad_getD c1 c3 (by omega) (by omega) i (by omega), if_pos hi3,
        xorZipPad_getD c2 c3 (by omega) (by omega) i (by omega), if_pos hi3]
      simp only [xorList, List.foldl_cons, List.foldl_nil]
      rw [zero_pxor _ ht3]
      exact txor4a _ _ _ _ ht0 ht1 ht2 ht3
  · simp only [h4_mappings, List.mem_cons, List.not_mem_nil, or_false] at hparts
    rcases hparts with rfl | rfl | rfl | rfl
    · -- c = 1, parts = [1]
      have hhome : i < c1.length := hi
      have hthome : (c1.getD i PungTuple.zero).data.length = TUPLE_SIZE :=
        hmem1 _ (getD_mem _ _ _ hhome)
      show xorList [c1.getD i PungTuple.zero] = c1.getD i PungTuple.zero
      simp only [xorList, List.foldl_cons, List.foldl_nil]
      exact zero_pxor _ hthome
    · -- c = 1, parts = [0, 4]
      have hiH : i < c1.length := hi
      have hiO : i < c0.length := hip 0 (by simp)
      have htH : (c1.getD i PungTuple.zero).data.length = TUPLE_SIZE :=
        hmem1 _ (getD_mem _ _ _ hiH)
      have htO : (c0.getD i PungTuple.zero).data.length = TUPLE_SIZE :=
        hmem0 _ (getD_mem _ _ _ hiO)
      show xorList [c0.getD i PungTuple.zero,
          (xorZipPad c0 c1).getD i PungTuple.zero] = c1.getD i PungTuple.zero
      rw [xorZipPad_getD c0 c1 (by omega) (by omega) i (by omega),
        if_pos (show i < c1.length by omega)]
      simp only [xorList, List.foldl_cons, List.foldl_nil]
      rw [zero_pxor _ htO]
      exact txor2b _ _ htO htH
    · -- c = 1, parts = [3, 7]
      have hiH : i < c1.length := hi
      have hiO : i < c3.length := hip 3 (by simp)
      have htH : (c1.getD i PungTuple.zero).data.length = TUPLE_SIZE :=
        hmem1 _ (getD_mem _ _ _ hiH)
      have htO : (c3.getD i PungTuple.zero).data.length = TUPLE_SIZE :=
        hmem3 _ (getD_mem _ _ _ hiO)
      show xorList [c3.getD i PungTuple.zero,
          (xorZipPad c1 c3).getD i PungTuple.zero] = c1.getD i PungTuple.zero
      rw [xorZipPad_getD c1 c3 (by omega) (by omega) i (by omega),
        if_pos (show i < c3.length by omega)]
      simp only [xorList, List.foldl_cons, List.foldl_nil]
      rw [zero_pxor _ htO]
      exact txor2a _ _ htH htO
    · -- c = 1, parts = [2, 5, 6, 8]
      have hi1 : i < c1.length := hi
      have hi2 : i < c2.length := hip 2 (by simp)
      have ht0 : (c0.getD i PungTuple.zero).data.length = TUPLE_SIZE :=
        hmem0 _ (getD_mem _ _ _ (by omega))
      have ht1 : (c1.getD i PungTuple.zero).data.length = TUPLE_SIZE :=
        hmem1 _ (getD_mem _ _ _ hi1)
      have ht2 : (c2.getD i PungTuple.zero).data.length = TUPLE_SIZE :=
        hmem2 _ (getD_mem _ _ _ hi2)
      show xorList [c2.getD i PungTuple.zero,
          (xorZipPad c2 c3).getD i PungTuple.zero,
          (xorZipPad c0 c2).getD i PungTuple.zero,
          (xorZipPad (xorZipPad c0 c2) (xorZipPad c1 c3)).getD i PungTuple.zero] =
        c1.getD i PungTuple.zero
      rw [xorZipPad_getD (xorZipPad c0 c2) (xorZipPad c1 c3)
          (by rw [hL6, hL7]; omega) (by rw [hL6, hL7]; omega) i (by rw [hL6]; omega),
        if_pos (show i < (xorZipPad c1 c3).length by rw [hL7]; omega),
        xorZipPad_getD c0 c2 (by omega) (by omega) i (by omega),
        if_pos (show i < c2.length by omega),
        xorZipPad_getD c1 c3 (by omega) (by omega) i (by omega),
        xorZipPad_getD c2 c3 (by omega) (by omega) i (by omega)]
      by_cases hpad : i < c3.length
      · rw [if_pos hpad, if_pos hpad]
        have ht3 : (c3.getD i PungTuple.zero).data.length = TUPLE_SIZE :=
          hmem3 _ (getD_mem _ _ _ hpad)
        simp only [xorList, List.foldl_cons, List.foldl_nil]
        rw [zero_pxor _ ht2]
        exact txor4c _ _ _ _ ht0 ht1 ht2 ht3
      · rw [if_neg hpad, if_neg hpad]
        simp only [xorList, List.foldl_cons, List.foldl_nil]
        rw [zero_pxor _ ht2]
        exact txor4d _ _ _ ht0 ht1 ht2
  · simp only [h4_mappings, List.mem_cons, List.not_mem_nil, or_false] at hparts
    rcases hparts with rfl | rfl | rfl | rfl
    · -- c = 2, parts = [2]
      have hhome : i < c2.length := hi
      have hthome : (c2.getD i PungTuple.zero).data.length = TUPLE_SIZE :=
        hmem2 _ (getD_mem _ _ _ hhome)
      show xorList [c2.getD i PungTuple.zero] = c2.getD i PungTuple.zero
      simp only [xorList, List.foldl_cons, List.foldl_nil]
      exact zero_pxor _ hthome
    · -- c = 2, parts = [3, 5]
      have hiH : i < c2.length := hi
      have hiO : i < c3.length := hip 3 (by simp)
      have htH : (c2.getD i PungTuple.zero).data.length = TUPLE_SIZE :=
        hmem2 _ (getD_mem _ _ _ hiH)
      have htO : (c3.getD i PungTuple.zero).data.length = TUPLE_SIZE :=
        hmem3 _ (getD_mem _ _ _ hiO)
      show xorList [c3.getD i PungTuple.zero,
          (xorZipPad c2 c3).getD i PungTuple.zero] = c2.getD i PungTuple.zero
      rw [xorZipPad_getD c2 c3 (by omega) (by omega) i (by omega),
        if_pos (show i < c3.length by omega)]
      simp only [xorList, List.foldl_cons, List.foldl_nil]
      rw [zero_pxor _ htO]
      exact txor2a _ _ htH htO
    · -- c = 2, parts = [0, 6]
      have hiH : i < c2.length := hi
      have hiO : i < c0.length := hip 0 (by simp)
      have htH : (c2.getD i PungTuple.zero).data.length = TUPLE_SIZE :=
        hmem2 _ (getD_mem _ _ _ hiH)
      have htO : (c0.getD i PungTuple.zero).data.length = TUPLE_SIZE :=
        hmem0 _ (getD_mem _ _ _ hiO)
      show xorList [c0.getD i PungTuple.zero,
          (xorZipPad c0 c2).getD i PungTuple.zero] = c2.getD i PungTuple.zero
      rw [xorZipPad_getD c0 c2 (by omega) (by omega) i (by omega),
        if_pos (show i < c2.length by omega)]
      simp only [xorList, List.foldl_cons, List.foldl_nil]
      rw [zero_pxor _ htO]
      exact txor2b _ _ htO htH
    · -- c = 2, parts = [1, 4, 7, 8]
      have hi2 : i < c2.length := hi
      have hi1 : i < c1.length := hip 1 (by simp)
      have ht0 : (c0.getD i PungTuple.zero).data.length = TUPLE_SIZE :=
        hmem0 _ (getD_mem _ _ _ (by omega))
      have ht1 : (c1.getD i PungTuple.zero).data.length = TUPLE_SIZE :=
        hmem1 _ (getD_mem _ _ _ hi1)
      have ht2 : (c2.getD i PungTuple.zero).data.length = TUPLE_SIZE :=
        hmem2 _ (getD_mem _ _ _ hi2)
      show xorList [c1.getD i PungTuple.zero,
          (xorZipPad c0 c1).getD i PungTuple.zero,
          (xorZipPad c1 c3).getD i PungTuple.zero,
          (xorZipPad (xorZipPad c0 c2) (xorZipPad c1 c3)).getD i PungTuple.zero] =
        c2.getD i PungTuple.zero
      rw [xorZipPad_getD (xorZipPad c0 c2) (xorZipPad c1 c3)
          (by rw [hL6, hL7]; omega) (by rw [hL6, hL7]; omega) i (by rw [hL6]; omega),
        if_pos (show i < (xorZipPad c1 c3).length by rw [hL7]; omega),
        xorZipPad_getD c0 c2 (by omega) (by omega) i (by omega),
        if_pos (show i < c2.length by omega),
        xorZipPad_getD c1 c3 (by omega) (by omega) i (by omega),
        xorZipPad_getD c0 c1 (by omega) (by omega) i (by omega),
        if_pos (show i < c1.length by omega)]
      by_cases hpad : i < c3.length
      · rw [if_pos hpad]
        have ht3 : (c3.getD i PungTuple.zero).data.length = TUPLE_SIZE :=
          hmem3 _ (getD_mem _ _ _ hpad)
        simp only [xorList, List.foldl_cons, List.foldl_nil]
        rw [zero_pxor _ ht1]
        exact txor4e _ _ _ _ ht0 ht1 ht2 ht3
      · rw [if_neg hpad]
        simp only [xorList, List.foldl_cons, List.foldl_nil]
        rw [zero_pxor _ ht1]
        exact txor4f _ _ _ ht0 ht1 ht2
  · simp only [h4_mappings, List.mem_cons, List.not_mem_nil, or_false] at hparts
    rcases hparts with rfl | rfl | rfl | rfl
    · -- c = 3, parts = [3]
      have hhome : i < c3.length := hi
      have hthome : (c3.getD i PungTuple.zero).data.length = TUPLE_SIZE :=
        hmem3 _ (getD_mem _ _ _ hhome)
      show xorList [c3.getD i PungTuple.zero] = c3.getD i PungTuple.zero
      simp only [xorList, List.foldl_cons, List.foldl_nil]
      exact zero_pxor _ hthome
    · -- c = 3, parts = [2, 5]
      have hiH : i < c3.length := hi
      have hiO : i < c2.length := hip 2 (by simp)
      have htH : (c3.getD i PungTuple.zero).data.length = TUPLE_SIZE :=
        hmem3 _ (getD_mem _ _ _ hiH)
      have htO : (c2.getD i PungTuple.zero).data.length = TUPLE_SIZE :=
        hmem2 _ (getD_mem _ _ _ hiO)
      show xorList [c2.getD i PungTuple.zero,
          (xorZipPad c2 c3).getD i PungTuple.zero] = c3.getD i PungTuple.zero
      rw [xorZipPad_getD c2 c3 (by omega) (by omega) i (by omega),
        if_pos (show i < c3.length by omega)]
      simp only [xorList, List.foldl_cons, List.foldl_nil]
      rw [zero_pxor _ htO]
      exact txor2b _ _ htO htH
    · -- c = 3, parts = [1, 7]
      have hiH : i < c3.length := hi
      have hiO : i < c1.length := hip 1 (by simp)
      have htH : (c3.getD i PungTuple.zero).data.length = TUPLE_SIZE :=
        hmem3 _ (getD_mem _ _ _ hiH)
      have htO : (c1.getD i PungTuple.zero).data.length = TUPLE_SIZE :=
        hmem1 _ (getD_mem _ _ _ hiO)
      show xorList [c1.getD i PungTuple.zero,
          (xorZipPad c1 c3).getD i PungTuple.zero] = c3.getD i PungTuple.zero
      rw [xorZipPad_getD c1 c3 (by omega) (by omega) i (by omega),
        if_pos (show i < c3.length by omega)]
      simp only [xorList, List.foldl_cons, List.foldl_nil]
      rw [zero_pxor _ htO]
      exact txor2b _ _ htO htH
    · -- c = 3, parts = [0, 4, 6, 8]
      have hi3 : i < c3.length := hi
      have hi0 : i < c0.length := hip 0 (by simp)
      have ht0 : (c0.getD i PungTuple.zero).data.length = TUPLE_SIZE :=
        hmem0 _ (getD_mem _ _ _ hi0)
      have ht1 : (c1.getD i PungTuple.zero).data.length = TUPLE_SIZE :=
        hmem1 _ (getD_mem _ _ _ (by omega))
      have ht2 : (c2.getD i PungTuple.zero).data.length = TUPLE_SIZE :=
        hmem2 _ (getD_mem _ _ _ (by omega))
      have ht3 : (c3.getD i PungTuple.zero).data.length = TUPLE_SIZE :=
        hmem3 _ (getD_mem _ _ _ hi3)
      show xorList [c0.getD i PungTuple.zero,
          (xorZipPad c0 c1).getD i PungTuple.zero,
          (xorZipPad c0 c2).getD i PungTuple.zero,
          (xorZipPad (xorZipPad c0 c2) (xorZipPad c1 c3)).getD i PungTuple.zero] =
        c3.getD i PungTuple.zero
      rw [xorZipPad_getD (xorZipPad c0 c2) (xorZipPad c1 c3)
          (by rw [hL6, hL7]; omega) (by rw [hL6, hL7]; omega) i (by rw [hL6]; omega),
        if_pos (show i < (xorZipPad c1 c3).length by rw [hL7]; omega),
        xorZipPad_getD c0 c2 (by omega) (by omega) i (by omega),
        if_pos (show i < c2.length by omega),
        xorZipPad_getD c1 c3 (by omega) (by omega) i (by omega), if_pos hi3,
        xorZipPad_getD c0 c1 (by omega) (by omega) i (by omega),
        if_pos (show i < c1.length by omega)]
      simp only [xorList, List.foldl_cons, List.foldl_nil]
      rw [zero_pxor _ ht0]
      exact txor4b _ _ _ _ ht0 ht1 ht2 ht3

set_option maxRecDepth 8192 in
/-- Witness: `hybrid4_batch_soundness` applied to a concrete one-tuple bucket
under Explicit retrieval, home collection 0, subset `[0]`, index 0. -/
theorem hybrid4_batch_soundness_witness :
    xorList ([0].map fun p =>
        (([[PungTuple.zero], [], [], [], [PungTuple.zero], [], [PungTuple.zero],
          [], [PungTuple.zero]].getD p []).getD 0 PungTuple.zero)) =
      ([[PungTuple.zero], [], [], [], [PungTuple.zero], [], [PungTuple.zero], [],
        [PungTuple.zero]].getD 0 []).getD 0 PungTuple.zero :=
  hybrid4_batch_soundness .Explicit [PungTuple.zero]
    (by
      intro t ht
      rw [List.mem_singleton] at ht
      subst ht
      simp [PungTuple.zero])
    [[PungTuple.zero], [], [], [], [PungTuple.zero], [], [PungTuple.zero], [],
      [PungTuple.zero]]
    (by decide) 0 (by omega) [0] (by simp [h4_mappings]) 0 (by decide)
    (by
      intro p hp
      rw [List.mem_singleton] at hp
      subst hp
      decide)

end Hybrid4Lemmas

section TreeAbort

lemma applyRet_tree_some (c : List PungTuple) (hne : c ≠ []) :
    ∃ out, applyRet .Tree c = some out := by
  obtain ⟨out, hout, _, _⟩ := as_bst_order_some c hne
  exact ⟨out, by rw [applyRet, if_pos rfl]; exact hout⟩

/-- Claim C10: `as_bst_order` aborts exactly on the empty vector (the
`self.len() − 1` underflow / out-of-bounds panic), and `Bucket::encode` in
`Tree` mode under Hybrid4 aborts exactly when some systematic sub-collection
it reorders is empty — which happens precisely when the bucket holds fewer
than four tuples.  The empty case is an abort, not an error return. -/
theorem tree_empty_abort (ts : List PungTuple) :
    (as_bst_order ts = none ↔ ts = []) ∧
    (encodeHybrid4 .Tree ts = none ↔ ts.length < 4) := by
  constructor
  · constructor
    · intro h
      by_contra hne
      obtain ⟨out, hout, _, _⟩ := as_bst_order_some ts hne
      rw [hout] at h
      exact Option.noConfusion h
    · rintro rfl
      rfl
  · have hlen : (sortTuples ts).length = ts.length := (sortTuples_perm ts).length_eq
    have hFront : (h4Front ts).length =
        min (((sortTuples ts).length + 1) / 2) (sortTuples ts).length := by
      simp [h4Front]
    have hBack : (h4Back ts).length =
        (sortTuples ts).length - ((sortTuples ts).length + 1) / 2 := by
      simp [h4Back]
    have hS0 : (h4Split0 ts).length =
        min (((h4Front ts).length + 1) / 2) (h4Front ts).length := by
      simp [h4Split0]
    have hS1 : (h4Split1 ts).length =
        (h4Front ts).length - ((h4Front ts).length + 1) / 2 := by
      simp [h4Split1]
    have hS2 : (h4Split2 ts).length =
        min (((h4Back ts).length + 1) / 2) (h4Back ts).length := by
      simp [h4Split2]
    have hS3 : (h4Split3 ts).length =
        (h4Back ts).length - ((h4Back ts).length + 1) / 2 := by
      simp [h4Split3]
    rw [encodeHybrid4]
    constructor
    · intro h
      by_contra hge
      rw [Nat.not_lt] at hge
      have h0ne : h4Split0 ts ≠ [] := by
        intro he
        have := congrArg List.length he
        simp only [List.length_nil] at this
        omega
      have h1ne : h4Split1 ts ≠ [] := by
        intro he
        have := congrArg List.length he
        simp only [List.length_nil] at this
        omega
      have h2ne : h4Split2 ts ≠ [] := by
        intro he
        have := congrArg List.length he
        simp only [List.length_nil] at this
        omega
      have h3ne : h4Split3 ts ≠ [] := by
        intro he
        have := congrArg List.length he
        simp only [List.length_nil] at this
        omega
      obtain ⟨o0, ho0⟩ := applyRet_tree_some _ h0ne
      obtain ⟨o1, ho1⟩ := applyRet_tree_some _ h1ne
      obtain ⟨o2, ho2⟩ := applyRet_tree_some _ h2ne
      obtain ⟨o3, ho3⟩ := applyRet_tree_some _ h3ne
      rw [ho0, ho1, ho2, ho3] at h
      exact Option.noConfusion h
    · intro hlt
      have h3e : h4Split3 ts = [] := by
        have h0 : (h4Split3 ts).length = 0 := by omega
        exact List.length_eq_zero.mp h0
      have h3n : applyRet .Tree (h4Split3 ts) = none := by
        rw [h3e]
        rfl
      rcases hA0 : applyRet .Tree (h4Split0 ts) with _ | c0 <;>
        rcases hA1 : applyRet .Tree (h4Split1 ts) with _ | c1 <;>
          rcases hA2 : applyRet .Tree (h4Split2 ts) with _ | c2 <;>
            rcases hA3 : applyRet .Tree (h4Split3 ts) with _ | c3 <;>
              first
                | rfl
                | (rw [hA3] at h3n
                   exact Option.noConfusion h3n)

end TreeAbort

section ServerLemmas

theorem alookup_nil (k : Nat) : alookup [] k = none := rfl

theorem alookup_append_last (m : List (Nat × Nat)) (k v : Nat)
    (h : alookup m k = none) : alookup (m ++ [(k, v)]) k = some v := by
  induction m with
  | nil => simp [alookup]
  | cons p m ih =>
    by_cases hpk : p.1 = k
    · exfalso
      simp [alookup, List.find?_cons, hpk] at h
    · have hne : (p.1 == k) = false := by
        simp [hpk]
      simp only [alookup, List.cons_append, List.find?_cons, hne] at h ⊢
      exact ih h

theorem alookup_none_iff (m : List (Nat × Nat)) (k : Nat) :
    alookup m k = none ↔ ∀ p ∈ m, p.1 ≠ k := by
  induction m with
  | nil => simp [alookup]
  | cons p m ih =>
    by_cases hpk : p.1 = k
    · simp [alookup, List.find?_cons, hpk]
    · have hne : (p.1 == k) = false := by simp [hpk]
      simp only [alookup, List.find?_cons, hne, List.mem_cons]
      constructor
      · intro h q hq
        rcases hq with rfl | hq
        · exact hpk
        · exact (ih.mp (by simpa [alookup] using h)) q hq
      · intro h
        have : alookup m k = none := ih.mpr fun q hq => h q (Or.inr hq)
        simpa [alookup] using this

theorem alookup_cons (p : Nat × Nat) (m : List (Nat × Nat)) (k : Nat) :
    alookup (p :: m) k = if p.1 = k then some p.2 else alookup m k := by
  by_cases h : p.1 = k
  · have hb : (p.1 == k) = true := by simp [h]
    simp only [alookup, List.find?_cons, hb, if_pos h]
  · have hb : (p.1 == k) = false := by simp [h]
    simp only [alookup, List.find?_cons, hb, if_neg h]

theorem aupdate_cons (p : Nat × Nat) (m : List (Nat × Nat)) (k v : Nat) :
    aupdate (p :: m) k v = (if p.1 = k then (k, v) else p) :: aupdate m k v := by
  simp only [aupdate, List.map_cons]
  by_cases h : p.1 = k
  · simp [h]
  · simp [h]

theorem alookup_aupdate_self (m : List (Nat × Nat)) (k v : Nat) :
    alookup (aupdate m k v) k = (alookup m k).map fun _ => v := by
  induction m with
  | nil => rfl
  | cons p m ih =>
    rw [aupdate_cons]
    by_cases hpk : p.1 = k
    · rw [if_pos hpk, alookup_cons, alookup_cons, if_pos hpk, if_pos rfl]
      rfl
    · rw [if_neg hpk, alookup_cons, alookup_cons, if_neg hpk, if_neg hpk, ih]

theorem alookup_aupdate_ne (m : List (Nat × Nat)) (k v j : Nat) (hjk : j ≠ k) :
    alookup (aupdate m k v) j = alookup m j := by
  induction m with
  | nil => rfl
  | cons p m ih =>
    rw [aupdate_cons]
    by_cases hpk : p.1 = k
    · have hkj : ¬(k = j) := fun h => hjk h.symm
      rw [if_pos hpk, alookup_cons, alookup_cons,
        if_neg (show ¬((k, v).1 = j) from hkj),
        if_neg (show ¬(p.1 = j) from fun h => hkj (hpk ▸ h)), ih]
    · rw [if_neg hpk, alookup_cons, alookup_cons, ih]

/-- C9.  The claim says every successful register returns a fresh id.
This counterexample run refutes it: register twice (ids 0, 1), close id 0,
then register again — `next_id` is the CURRENT table size, so the new client
is handed id 1, which is still registered (and its rate entry is silently
overwritten by `HashMap::insert`). -/
theorem register_freshness_cex :
    register initState 1 = .ok
      ({ initState with clients := [(0, 1)] }, 0) ∧
    register { initState with clients := [(0, 1)] } 1 = .ok
      ({ initState with clients := [(0, 1), (1, 1)] }, 1) ∧
    close { initState with clients := [(0, 1), (1, 1)] } 0 = .ok
      { initState with clients := [(1, 1)] } ∧
    register { initState with clients := [(1, 1)] } 1 = .ok
      ({ initState with clients := [(1, 1)] }, 1) ∧
    (1, 1) ∈ ({ initState with clients := [(1, 1)] } : ServerState).clients := by
  refine ⟨rfl, rfl, rfl, rfl, by decide⟩

/-- C9 (amended): register with a positive rate succeeds and returns
`next_id = |clients|`; that id is fresh PROVIDED every registered id is below
the table size (true for close-free histories, and preserved by register:
the new table again has all ids below its size).  register rejects exactly
rate 0. -/
theorem register_amended (st : ServerState) (rate : Nat) (hr : 0 < rate)
    (hkeys : ∀ p ∈ st.clients, p.1 < st.clients.length) :
    ∃ st', register st rate = .ok (st', next_id st.clients) ∧
      (∀ p ∈ st.clients, p.1 ≠ next_id st.clients) ∧
      st'.clients = st.clients ++ [(next_id st.clients, rate)] ∧
      alookup st'.clients (next_id st.clients) = some rate ∧
      (∀ p ∈ st'.clients, p.1 < st'.clients.length) ∧
      register st 0 = .error "Invalid rate (0)" := by
  have hfresh : ∀ p ∈ st.clients, p.1 ≠ next_id st.clients := by
    intro p hp
    exact Nat.ne_of_lt (hkeys p hp)
  have hnone : alookup st.clients (next_id st.clients) = none :=
    (alookup_none_iff _ _).mpr hfresh
  have hfind : (st.clients.find? fun p => p.1 == next_id st.clients) = none := by
    simp only [alookup] at hnone
    cases hf : st.clients.find? fun p => p.1 == next_id st.clients with
    | none => rfl
    | some p => rw [hf] at hnone; exact Option.noConfusion hnone
  have hins : ainsert st.clients (next_id st.clients) rate =
      st.clients ++ [(next_id st.clients, rate)] := by
    simp [ainsert, hfind]
  refine ⟨{ st with clients := ainsert st.clients (next_id st.clients) rate },
    ?_, hfresh, hins, ?_, ?_, ?_⟩
  · simp [register, Nat.pos_iff_ne_zero.mp hr]
  · rw [hins]
    exact alookup_append_last _ _ _ hnone
  · intro p hp
    simp only [hins, List.mem_append, List.mem_singleton, List.length_append,
      List.length_singleton] at hp ⊢
    rcases hp with hp | rfl
    · exact Nat.lt_succ_of_lt (hkeys p hp)
    · exact Nat.lt_succ_self _
  · rfl

theorem register_amended_witness :
    ∃ st', register { initState with clients := [(0, 7)] } 3 =
        .ok (st', next_id [(0, 7)]) ∧
      (∀ p ∈ [((0 : Nat), (7 : Nat))], p.1 ≠ next_id [(0, 7)]) ∧
      st'.clients = [(0, 7)] ++ [(next_id [(0, 7)], 3)] ∧
      alookup st'.clients (next_id [(0, 7)]) = some 3 ∧
      (∀ p ∈ st'.clients, p.1 < st'.clients.length) ∧
      register { initState with clients := [(0, 7)] } 0 =
        .error "Invalid rate (0)" :=
  register_amended { initState with clients := [(0, 7)] } 3 (by decide)
    (by decide)

theorem physicalOf_length (opt : OptScheme) (w : List Nat) :
    (physicalOf opt w).length = aliasFactor opt := by
  cases h : opt.aliased <;> simp [physicalOf, aliasFactor, h]

theorem flatten_physical_length (opt : OptScheme) (wire : List (List Nat)) :
    ((wire.map (physicalOf opt)).flatten).length =
      aliasFactor opt * wire.length := by
  induction wire with
  | nil => simp
  | cons w ws ih =>
    simp only [List.map_cons, List.flatten_cons, List.length_append,
      List.length_cons, ih, physicalOf_length]
    ring

/-- C4.  The claim says quota is charged 1 per PHYSICAL tuple (2 per wire
tuple under Aliasing) and that requests exceeding the quota are rejected.
Counterexample: under Aliasing a client with 1 remaining send gets one wire
tuple ACCEPTED — the rate check and the decrement both use the wire count —
yet two physical tuples are installed. -/
theorem send_accounting_cex :
    sendCurrent .Aliasing
        { initState with clients := [(0, 5)], sendReqs := [(0, 1)] }
        0 0 [List.replicate 318 0] =
      .ok { initState with
        clients := [(0, 5)], sendReqs := [(0, 0)], sendCount := 2,
        installed := [⟨List.replicate 286 0⟩, ⟨List.replicate 286 0⟩] } := by
  rfl

/-- C4 (amended): on the current-round path, send is rejected exactly when
the WIRE-TUPLE count exceeds the client's remaining sends (errors carry no
state change); an accepted request decrements the sender's remaining count by
the wire-tuple count — not by the physical count — while installing
`aliasFactor × wire` physical tuples, leaving every other counter and the
rest of the state untouched. -/
theorem send_accounting_amended (opt : OptScheme) (st : ServerState)
    (id : Nat) (wire : List (List Nat)) (rem : Nat)
    (hc : alookup st.clients id ≠ none)
    (hp : st.phase = .Sending)
    (hw : wire ≠ [])
    (hs : alookup st.sendReqs id = some rem) :
    (rem < wire.length →
      sendCurrent opt st id st.round wire = .error "Send rate exceeded.") ∧
    (wire.length ≤ rem → ∃ st',
      sendCurrent opt st id st.round wire = .ok st' ∧
      alookup st'.sendReqs id = some (rem - wire.length) ∧
      (∀ j, j ≠ id → alookup st'.sendReqs j = alookup st.sendReqs j) ∧
      st'.installed = st.installed ++ (wire.map (physicalOf opt)).flatten ∧
      st'.installed.length = st.installed.length + aliasFactor opt * wire.length ∧
      st'.sendCount = st.sendCount + aliasFactor opt * wire.length ∧
      st'.clients = st.clients ∧ st'.retReqs = st.retReqs ∧
      st'.round = st.round ∧ st'.phase = st.phase ∧ st'.db = st.db) := by
  have hred : sendCurrent opt st id st.round wire =
      if rem < wire.length then Except.error "Send rate exceeded."
      else Except.ok { st with
        sendReqs := aupdate st.sendReqs id (rem - wire.length),
        sendCount := st.sendCount + ((wire.map (physicalOf opt)).flatten).length,
        installed := st.installed ++ (wire.map (physicalOf opt)).flatten } := by
    unfold sendCurrent
    rw [if_neg hc, if_neg (Nat.lt_irrefl st.round),
      if_neg (fun hcon => hcon.1 hp), if_neg hw, hs]
  constructor
  · intro hlt
    rw [hred, if_pos hlt]
  · intro hle
    refine ⟨{ st with
        sendReqs := aupdate st.sendReqs id (rem - wire.length),
        sendCount := st.sendCount + ((wire.map (physicalOf opt)).flatten).length,
        installed := st.installed ++ (wire.map (physicalOf opt)).flatten },
      by rw [hred, if_neg (Nat.not_lt.mpr hle)], ?_, ?_, rfl, ?_, ?_,
      rfl, rfl, rfl, rfl, rfl⟩
    · show alookup (aupdate st.sendReqs id (rem - wire.length)) id = _
      rw [alookup_aupdate_self, hs]
      rfl
    · intro j hj
      exact alookup_aupdate_ne _ _ _ _ hj
    · show (st.installed ++ (wire.map (physicalOf opt)).flatten).length = _
      rw [List.length_append, flatten_physical_length]
    · show st.sendCount + ((wire.map (physicalOf opt)).flatten).length = _
      rw [flatten_physical_length]

theorem send_accounting_amended_witness :
    sendCurrent .Normal
        { initState with clients := [(0, 4)], sendReqs := [(0, 1)] }
        0 0 [[5], [6]] = .error "Send rate exceeded." :=
  (send_accounting_amended .Normal
    { initState with clients := [(0, 4)], sendReqs := [(0, 1)] }
    0 [[5], [6]] 1 (by decide) rfl (by decide) rfl).1 (by decide)

theorem retrOkState_retReqs (st : ServerState) (id : Nat) :
    (retrOkState st id).retReqs =
      aupdate st.retReqs id ((alookup st.retReqs id).getD 0 - 1) := by
  unfold retrOkState
  split <;> rfl

theorem retr_case_error (ret : RetScheme) (st : ServerState)
    (id round bucket collection level query : Nat) (e : String)
    (heq : retr ret st id round bucket collection level query =
      some (st, Except.error e))
    (hcond : retrErrCond ret st id round bucket collection level) :
    (∀ st' e', retr ret st id round bucket collection level query =
        some (st', .error e') →
      st' = st ∧ retrErrCond ret st id round bucket collection level) ∧
    (retrErrCond ret st id round bucket collection level →
      ∃ e', retr ret st id round bucket collection level query =
        some (st, .error e')) ∧
    (retr ret st id round bucket collection level query = none ↔
      ¬retrErrCond ret st id round bucket collection level ∧
      ((st.db.getD bucket []).getD collection ⟨[], []⟩).set = []) ∧
    (∀ st' a, retr ret st id round bucket collection level query =
        some (st', .ok a) →
      a = (((st.db.getD bucket []).getD collection ⟨[], []⟩).pirDbs.getD level [],
        query) ∧
      alookup st'.retReqs id = some ((alookup st.retReqs id).getD 0 - 1) ∧
      (∀ j, j ≠ id → alookup st'.retReqs j = alookup st.retReqs j)) := by
  refine ⟨?_, fun _ => ⟨e, heq⟩, ?_, ?_⟩
  · intro st' e' h
    rw [heq] at h
    have h2 := Option.some.inj h
    exact ⟨(congrArg Prod.fst h2).symm, hcond⟩
  · rw [heq]
    constructor
    · intro h
      exact Option.noConfusion h
    · intro hh
      exact absurd hcond hh.1
  · intro st' a h
    rw [heq] at h
    have h2 := congrArg Prod.snd (Option.some.inj h)
    exact Except.noConfusion h2

/-- C8.  The claim says retr errors exactly on the listed conditions and
otherwise returns the PIR answer.  Counterexample: a synchronized client with
quota, Receiving phase, and a well-formed database whose only collection is
EMPTY — no error condition holds (under Explicit retrieval num_levels is 1),
but `pir_setup` skipped the empty collection, so the handler indexes an empty
`pir_dbs` vector and panics: neither an error nor an answer. -/
theorem retr_atomicity_cex :
    retr .Explicit
        { initState with
          clients := [(0, 1)], phase := .Receiving,
          retReqs := [(0, 1)], db := [[⟨[], []⟩]] }
        0 0 0 0 0 7 = none ∧
    PirWellFormed .Explicit
      { initState with
        clients := [(0, 1)], phase := .Receiving,
        retReqs := [(0, 1)], db := [[⟨[], []⟩]] } ∧
    ¬ retrErrCond .Explicit
        { initState with
          clients := [(0, 1)], phase := .Receiving,
          retReqs := [(0, 1)], db := [[⟨[], []⟩]] }
        0 0 0 0 0 := by
  refine ⟨rfl, ?_, ?_⟩
  · unfold PirWellFormed
    decide
  · unfold retrErrCond
    decide

/-- C8 (amended): over states whose PIR handles match `pir_setup`'s output,
retr returns an error exactly on the claim's conditions, and every error
leaves the state unchanged; when no condition holds and the selected
collection is NONEMPTY, the answer is computed from the selected level's PIR
database and the query, and exactly the caller's quota is decremented by 1;
but when the selected collection is empty under Explicit/Bloom retrieval the
level check passes while no PIR handle exists, and the server panics
(modelled `none`) instead of erroring or answering. -/
theorem retr_amended (ret : RetScheme) (st : ServerState)
    (id round bucket collection level query : Nat)
    (hwf : PirWellFormed ret st) :
    (∀ st' e', retr ret st id round bucket collection level query =
        some (st', .error e') →
      st' = st ∧ retrErrCond ret st id round bucket collection level) ∧
    (retrErrCond ret st id round bucket collection level →
      ∃ e', retr ret st id round bucket collection level query =
        some (st, .error e')) ∧
    (retr ret st id round bucket collection level query = none ↔
      ¬retrErrCond ret st id round bucket collection level ∧
      ((st.db.getD bucket []).getD collection ⟨[], []⟩).set = []) ∧
    (∀ st' a, retr ret st id round bucket collection level query =
        some (st', .ok a) →
      a = (((st.db.getD bucket []).getD collection ⟨[], []⟩).pirDbs.getD level [],
        query) ∧
      alookup st'.retReqs id = some ((alookup st.retReqs id).getD 0 - 1) ∧
      (∀ j, j ≠ id → alookup st'.retReqs j = alookup st.retReqs j)) := by
  by_cases h1 : alookup st.clients id = none
  · exact retr_case_error ret st id round bucket collection level query _
      (by unfold retr; rw [if_pos h1]) (Or.inl h1)
  by_cases h2 : round ≠ st.round
  · exact retr_case_error ret st id round bucket collection level query _
      (by unfold retr; rw [if_neg h1, if_pos h2]) (Or.inr (Or.inl h2))
  by_cases h3 : st.phase ≠ Phase.Receiving
  · exact retr_case_error ret st id round bucket collection level query _
      (by unfold retr; rw [if_neg h1, if_neg h2, if_pos h3])
      (Or.inr (Or.inr (Or.inl h3)))
  by_cases h4 : alookup st.retReqs id = none
  · exact retr_case_error ret st id round bucket collection level query _
      (by unfold retr; rw [if_neg h1, if_neg h2, if_neg h3, if_pos h4])
      (Or.inr (Or.inr (Or.inr (Or.inl h4))))
  by_cases h5 : alookup st.retReqs id = some 0
  · exact retr_case_error ret st id round bucket collection level query _
      (by unfold retr; rw [if_neg h1, if_neg h2, if_neg h3, if_neg h4, if_pos h5])
      (Or.inr (Or.inr (Or.inr (Or.inr (Or.inl h5)))))
  by_cases h6 : st.db.length ≤ bucket
  · exact retr_case_error ret st id round bucket collection level query _
      (by unfold retr
          rw [if_neg h1, if_neg h2, if_neg h3, if_neg h4, if_neg h5, if_pos h6])
      (Or.inr (Or.inr (Or.inr (Or.inr (Or.inr (Or.inl h6))))))
  by_cases h7 : (st.db.getD bucket []).length ≤ collection
  · exact retr_case_error ret st id round bucket collection level query _
      (by unfold retr
          rw [if_neg h1, if_neg h2, if_neg h3, if_neg h4, if_neg h5, if_neg h6,
            if_pos h7])
      (Or.inr (Or.inr (Or.inr (Or.inr (Or.inr (Or.inr (Or.inl h7)))))))
  by_cases h8 : num_levels ret ((st.db.getD bucket []).getD collection ⟨[], []⟩) ≤ level
  · exact retr_case_error ret st id round bucket collection level query _
      (by unfold retr
          rw [if_neg h1, if_neg h2, if_neg h3, if_neg h4, if_neg h5, if_neg h6,
            if_neg h7, if_pos h8])
      (Or.inr (Or.inr (Or.inr (Or.inr (Or.inr (Or.inr (Or.inr h8)))))))
  have hnc : ¬retrErrCond ret st id round bucket collection level := by
    intro hc
    simp only [retrErrCond] at hc
    rcases hc with hc | hc | hc | hc | hc | hc | hc | hc
    · exact h1 hc
    · exact h2 hc
    · exact h3 hc
    · exact h4 hc
    · exact h5 hc
    · exact h6 hc
    · exact h7 hc
    · exact h8 hc
  have hblt : bucket < st.db.length := Nat.not_le.mp h6
  have hclt : collection < (st.db.getD bucket []).length := Nat.not_le.mp h7
  have hlvl : level <
      num_levels ret ((st.db.getD bucket []).getD collection ⟨[], []⟩) :=
    Nat.not_le.mp h8
  have hbmem : st.db.getD bucket [] ∈ st.db := getD_mem _ _ _ hblt
  have hcmem : (st.db.getD bucket []).getD collection ⟨[], []⟩ ∈
      st.db.getD bucket [] := getD_mem _ _ _ hclt
  have hwfc := hwf _ hbmem _ hcmem
  cases hpir : ((st.db.getD bucket []).getD collection ⟨[], []⟩).pirDbs[level]? with
  | none =>
    have heq : retr ret st id round bucket collection level query = none := by
      unfold retr
      rw [if_neg h1, if_neg h2, if_neg h3, if_neg h4, if_neg h5, if_neg h6,
        if_neg h7, if_neg h8, hpir]
    have hsetE : ((st.db.getD bucket []).getD collection ⟨[], []⟩).set = [] := by
      by_contra hne
      have hlen := hwfc.2 hne
      have hlt : level <
          ((st.db.getD bucket []).getD collection ⟨[], []⟩).pirDbs.length := by
        rw [hlen]
        exact hlvl
      rw [List.getElem?_eq_getElem hlt] at hpir
      exact Option.noConfusion hpir
    refine ⟨?_, ?_, ?_, ?_⟩
    · intro st' e' h
      rw [heq] at h
      exact Option.noConfusion h
    · intro hc
      exact absurd hc hnc
    · rw [heq]
      exact ⟨fun _ => ⟨hnc, hsetE⟩, fun _ => rfl⟩
    · intro st' a h
      rw [heq] at h
      exact Option.noConfusion h
  | some lvl =>
    have heq : retr ret st id round bucket collection level query =
        some (retrOkState st id, .ok (lvl, query)) := by
      unfold retr
      rw [if_neg h1, if_neg h2, if_neg h3, if_neg h4, if_neg h5, if_neg h6,
        if_neg h7, if_neg h8, hpir]
    have hsetNE : ((st.db.getD bucket []).getD collection ⟨[], []⟩).set ≠ [] := by
      intro hse
      have hemp := hwfc.1 hse
      rw [hemp] at hpir
      simp at hpir
    refine ⟨?_, ?_, ?_, ?_⟩
    · intro st' e' h
      rw [heq] at h
      have h2 := congrArg Prod.snd (Option.some.inj h)
      exact Except.noConfusion h2
    · intro hc
      exact absurd hc hnc
    · rw [heq]
      constructor
      · intro h
        exact Option.noConfusion h
      · intro hh
        exact absurd hh.2 hsetNE
    · intro st' a h
      rw [heq] at h
      have h2 := Option.some.inj h
      have hst : retrOkState st id = st' := congrArg Prod.fst h2
      have ha2 : (lvl, query) = a :=
        Except.ok.inj (congrArg Prod.snd h2)
      refine ⟨?_, ?_, ?_⟩
      · rw [← ha2]
        have hg : ((st.db.getD bucket []).getD collection ⟨[], []⟩).pirDbs.getD
            level [] = lvl := by
          rw [List.getD_eq_getElem?_getD, hpir]
          rfl
        rw [hg]
      · rw [← hst, retrOkState_retReqs, alookup_aupdate_self]
        cases hrq : alookup st.retReqs id with
        | none => exact absurd hrq h4
        | some r => rfl
      · intro j hj
        rw [← hst, retrOkState_retReqs]
        exact alookup_aupdate_ne _ _ _ _ hj

theorem retr_amended_witness :
    ∃ e, retr .Explicit initState 0 0 0 0 0 7 =
      some (initState, .error e) :=
  (retr_amended .Explicit initState 0 0 0 0 0 7
    (by unfold PirWellFormed; decide)).2.1
    (by unfold retrErrCond; decide)

end ServerLemmas

section ProbeLeak

/-- C1.  Access-pattern uniformity fails in the code (the source's own XXX
comments acknowledge it): with a fixed configuration — one bucket, all four
systematic collections of length 1, fixed lmids — four labels that all fall
in collection 0 produce a probe sequence starting at collection 0, while four
labels that all fall in collection 3 produce one starting at collection 3;
the label-classified home collection drives the probe order, so the
`(bucket, collection, level, length)` sequence is NOT a function of the
configuration alone. -/
theorem hybrid4_probe_order_leak :
    classifyLabel
        [1 :: List.replicate 31 0, 2 :: List.replicate 31 0,
          3 :: List.replicate 31 0] (List.replicate 32 0) = 0 ∧
    classifyLabel
        [1 :: List.replicate 31 0, 2 :: List.replicate 31 0,
          3 :: List.replicate 31 0] (List.replicate 32 255) = 3 ∧
    (hybrid4ProbeSeq 0 [1, 1, 1, 1]
        [1 :: List.replicate 31 0, 2 :: List.replicate 31 0,
          3 :: List.replicate 31 0]
        (List.replicate 4 (List.replicate 32 0))).head? ≠
      (hybrid4ProbeSeq 0 [1, 1, 1, 1]
        [1 :: List.replicate 31 0, 2 :: List.replicate 31 0,
          3 :: List.replicate 31 0]
        (List.replicate 4 (List.replicate 32 255))).head? ∧
    hybrid4ProbeSeq 0 [1, 1, 1, 1]
        [1 :: List.replicate 31 0, 2 :: List.replicate 31 0,
          3 :: List.replicate 31 0]
        (List.replicate 4 (List.replicate 32 0)) ≠
      hybrid4ProbeSeq 0 [1, 1, 1, 1]
        [1 :: List.replicate 31 0, 2 :: List.replicate 31 0,
          3 :: List.replicate 31 0]
        (List.replicate 4 (List.replicate 32 255)) := by
  refine ⟨by decide, by decide, by decide, by decide⟩

end ProbeLeak

section BstInversion

theorem find_idx_zero : find_idx 0 = 0 := by
  rw [find_idx, if_neg (by omega)]
  norm_num [Nat.log_one_right, Nat.clog_one_right]

theorem find_idx_one : find_idx 1 = 0 := by
  rw [find_idx, if_pos rfl]

theorem nodeIv_zero (n : Nat) : nodeIv n 0 = (0, n) := by
  rw [nodeIv]

theorem nodeIv_left (n j : Nat) :
    nodeIv n (2 * j + 1) = ((nodeIv n j).1, find_idx (nodeIv n j).2) := by
  have h : nodeIv n (2 * j + 1) =
      nodeChild (nodeIv n ((2 * j) / 2)) ((2 * j) % 2) := by
    rw [nodeIv]
  rw [h, show (2 * j) / 2 = j by omega, show (2 * j) % 2 = 0 by omega]
  rfl

theorem nodeIv_right (n j : Nat) :
    nodeIv n (2 * j + 2) =
      ((nodeIv n j).1 + find_idx (nodeIv n j).2 + 1,
        (nodeIv n j).2 - 1 - find_idx (nodeIv n j).2) := by
  have h : nodeIv n (2 * j + 2) =
      nodeChild (nodeIv n ((2 * j + 1) / 2)) ((2 * j + 1) % 2) := by
    rw [show 2 * j + 2 = (2 * j + 1) + 1 by omega, nodeIv]
  rw [h, show (2 * j + 1) / 2 = j by omega, show (2 * j + 1) % 2 = 1 by omega]
  rfl

theorem inorderIdx_lt (n j : Nat) (h : j < n) :
    inorderIdx n j =
      inorderIdx n (2 * j + 1) ++ j :: inorderIdx n (2 * j + 2) := by
  rw [inorderIdx, if_pos h]

theorem inorderIdx_ge (n j : Nat) (h : ¬ j < n) : inorderIdx n j = [] := by
  rw [inorderIdx, if_neg h]

theorem find_idx_closed (q c : Nat) (hq : 1 ≤ q) (hc : c ≤ 2 ^ q) :
    find_idx (2 ^ q - 1 + c) = 2 ^ (q - 1) - 1 + min c (2 ^ (q - 1)) := by
  have hq2 : 2 ^ q = 2 * 2 ^ (q - 1) := by
    rw [← pow_succ']
    congr 1
    omega
  have hp1 : 0 < 2 ^ (q - 1) := Nat.pos_pow_of_pos _ (by omega)
  rcases Nat.lt_or_ge c (2 ^ q) with hlt | hge
  · by_cases hc0 : c = 0
    · subst hc0
      by_cases hq1 : q = 1
      · subst hq1
        norm_num [find_idx_one]
      · have h4 : 4 ≤ 2 ^ q := by
          calc (4 : Nat) = 2 ^ 2 := by norm_num
            _ ≤ 2 ^ q := Nat.pow_le_pow_right (by omega) (by omega)
        rw [find_idx, if_neg (by omega)]
        rw [show 2 ^ q - 1 + 0 + 1 = 2 ^ q by omega,
          Nat.log_pow (by omega), Nat.clog_pow _ _ (by omega)]
        omega
    · have h2 : 2 ≤ 2 ^ q := by
        calc (2 : Nat) = 2 ^ 1 := by norm_num
          _ ≤ 2 ^ q := Nat.pow_le_pow_right (by omega) hq
      rw [find_idx, if_neg (by omega)]
      have hq12 : 2 ^ (q + 1) = 2 * 2 ^ q := by ring
      have hlog : Nat.log 2 (2 ^ q - 1 + c + 1) = q := by
        apply Nat.log_eq_of_pow_le_of_lt_pow
        · omega
        · omega
      have hclog : Nat.clog 2 (2 ^ q - 1 + c + 1) = q + 1 := by
        have hle : Nat.clog 2 (2 ^ q - 1 + c + 1) ≤ q + 1 :=
          (Nat.le_pow_iff_clog_le (by omega)).mp (by omega)
        have hgt : q < Nat.clog 2 (2 ^ q - 1 + c + 1) :=
          (Nat.pow_lt_iff_lt_clog (by omega)).mp (by omega)
        omega
      rw [hlog, hclog]
      omega
  · have hceq : c = 2 ^ q := le_antisymm hc hge
    subst hceq
    have h2 : 2 ≤ 2 ^ q := by
      calc (2 : Nat) = 2 ^ 1 := by norm_num
        _ ≤ 2 ^ q := Nat.pow_le_pow_right (by omega) hq
    rw [find_idx, if_neg (by omega)]
    have hq12 : 2 ^ (q + 1) = 2 * 2 ^ q := by ring
    rw [show 2 ^ q - 1 + 2 ^ q + 1 = 2 ^ (q + 1) by omega,
      Nat.log_pow (by omega), Nat.clog_pow _ _ (by omega)]
    omega

theorem nodeIv_closed (n : Nat) : ∀ d i, i < 2 ^ d →
    (d ≤ Nat.log 2 (n + 1) →
      nodeIv n (2 ^ d - 1 + i) =
        (i * 2 ^ (Nat.log 2 (n + 1) - d) +
            min (n + 1 - 2 ^ Nat.log 2 (n + 1))
              (i * 2 ^ (Nat.log 2 (n + 1) - d)),
          2 ^ (Nat.log 2 (n + 1) - d) - 1 +
            min (2 ^ (Nat.log 2 (n + 1) - d))
              (n + 1 - 2 ^ Nat.log 2 (n + 1) -
                i * 2 ^ (Nat.log 2 (n + 1) - d)))) ∧
    (Nat.log 2 (n + 1) < d → (nodeIv n (2 ^ d - 1 + i)).2 = 0) := by
  intro d
  induction d with
  | zero =>
    intro i hi
    have hi0 : i = 0 := by omega
    subst hi0
    constructor
    · intro _
      rw [show 2 ^ 0 - 1 + 0 = 0 by norm_num, nodeIv_zero, Nat.sub_zero,
        Nat.zero_mul]
      have h1 : 2 ^ Nat.log 2 (n + 1) ≤ n + 1 := Nat.pow_log_le_self 2 (by omega)
      have h2 : n + 1 < 2 ^ (Nat.log 2 (n + 1) + 1) :=
        Nat.lt_pow_succ_log_self (by omega) _
      have h3 : 2 ^ (Nat.log 2 (n + 1) + 1) = 2 * 2 ^ Nat.log 2 (n + 1) := by ring
      rw [Prod.mk.injEq]
      constructor <;> omega
    · intro hlt
      omega
  | succ d ih =>
    intro i hi
    have h2d : 0 < 2 ^ d := Nat.pos_pow_of_pos _ (by omega)
    have h2d1 : 2 ^ (d + 1) = 2 * 2 ^ d := by ring
    obtain ⟨k, hk2⟩ : ∃ k, i = 2 * k ∨ i = 2 * k + 1 := ⟨i / 2, by omega⟩
    have hABk : 2 ^ (Nat.log 2 (n + 1) - d) =
        2 * 2 ^ (Nat.log 2 (n + 1) - d - 1) ∨ Nat.log 2 (n + 1) ≤ d := by
      rcases Nat.lt_or_ge d (Nat.log 2 (n + 1)) with hlt | hge
      · left
        rw [← pow_succ']
        congr 1
        omega
      · right
        exact hge
    rcases hk2 with rfl | rfl
    · -- left child: i = 2k
      obtain ⟨ihc, ihz⟩ := ih k (by omega)
      have hidxE : 2 ^ (d + 1) - 1 + 2 * k = 2 * (2 ^ d - 1 + k) + 1 := by omega
      constructor
      · intro hd1
        have hdp : d ≤ Nat.log 2 (n + 1) := by omega
        have hAB : 2 ^ (Nat.log 2 (n + 1) - d) =
            2 * 2 ^ (Nat.log 2 (n + 1) - d - 1) := by
          rcases hABk with h | h
          · exact h
          · omega
        have heq := ihc hdp
        rw [hidxE, nodeIv_left, heq]
        dsimp only
        rw [find_idx_closed (Nat.log 2 (n + 1) - d) _ (by omega)
          (Nat.min_le_left _ _)]
        rw [show Nat.log 2 (n + 1) - (d + 1) = Nat.log 2 (n + 1) - d - 1 by omega]
        have hga : 2 * k * 2 ^ (Nat.log 2 (n + 1) - d - 1) =
            k * 2 ^ (Nat.log 2 (n + 1) - d) := by
          rw [hAB]
          ring
        rw [hga, Prod.mk.injEq]
        constructor <;> omega
      · intro hlt1
        rw [hidxE, nodeIv_left]
        dsimp only
        rcases Nat.lt_or_ge (Nat.log 2 (n + 1)) d with hlt | hge
        · rw [ihz hlt, find_idx_zero]
        · have hdP : d = Nat.log 2 (n + 1) := by omega
          have heq := ihc (by omega)
          rw [heq]
          dsimp only
          rw [show Nat.log 2 (n + 1) - d = 0 by omega, pow_zero]
          have hm : min 1 (n + 1 - 2 ^ Nat.log 2 (n + 1) - k * 1) = 0 ∨
              min 1 (n + 1 - 2 ^ Nat.log 2 (n + 1) - k * 1) = 1 := by omega
          rcases hm with hm | hm <;> rw [hm]
          · rw [show 1 - 1 + 0 = 0 by omega, find_idx_zero]
          · rw [show 1 - 1 + 1 = 1 by omega, find_idx_one]
    · -- right child: i = 2k + 1
      obtain ⟨ihc, ihz⟩ := ih k (by omega)
      have hidxO : 2 ^ (d + 1) - 1 + (2 * k + 1) = 2 * (2 ^ d - 1 + k) + 2 := by
        omega
      constructor
      · intro hd1
        have hdp : d ≤ Nat.log 2 (n + 1) := by omega
        have hAB : 2 ^ (Nat.log 2 (n + 1) - d) =
            2 * 2 ^ (Nat.log 2 (n + 1) - d - 1) := by
          rcases hABk with h | h
          · exact h
          · omega
        have hB : 0 < 2 ^ (Nat.log 2 (n + 1) - d - 1) :=
          Nat.pos_pow_of_pos _ (by omega)
        have heq := ihc hdp
        rw [hidxO, nodeIv_right, heq]
        dsimp only
        rw [find_idx_closed (Nat.log 2 (n + 1) - d) _ (by omega)
          (Nat.min_le_left _ _)]
        rw [show Nat.log 2 (n + 1) - (d + 1) = Nat.log 2 (n + 1) - d - 1 by omega]
        have hga : (2 * k + 1) * 2 ^ (Nat.log 2 (n + 1) - d - 1) =
            k * 2 ^ (Nat.log 2 (n + 1) - d) +
              2 ^ (Nat.log 2 (n + 1) - d - 1) := by
          rw [hAB]
          ring
        rw [hga, Prod.mk.injEq]
        constructor <;> omega
      · intro hlt1
        rw [hidxO, nodeIv_right]
        dsimp only
        rcases Nat.lt_or_ge (Nat.log 2 (n + 1)) d with hlt | hge
        · rw [ihz hlt, find_idx_zero]
        · have heq := ihc (by omega)
          rw [heq]
          dsimp only
          rw [show Nat.log 2 (n + 1) - d = 0 by omega, pow_zero]
          have hm : min 1 (n + 1 - 2 ^ Nat.log 2 (n + 1) - k * 1) = 0 ∨
              min 1 (n + 1 - 2 ^ Nat.log 2 (n + 1) - k * 1) = 1 := by omega
          rcases hm with hm | hm <;> rw [hm]
          · rw [show 1 - 1 + 0 = 0 by omega, find_idx_zero]
          · rw [show 1 - 1 + 1 = 1 by omega, find_idx_one]

theorem node_decomp (j : Nat) : ∃ d i, i < 2 ^ d ∧ j = 2 ^ d - 1 + i := by
  have h1 : 2 ^ Nat.log 2 (j + 1) ≤ j + 1 := Nat.pow_log_le_self 2 (by omega)
  have h2 : j + 1 < 2 ^ (Nat.log 2 (j + 1) + 1) :=
    Nat.lt_pow_succ_log_self (by omega) _
  have h3 : 2 ^ (Nat.log 2 (j + 1) + 1) = 2 * 2 ^ Nat.log 2 (j + 1) := by ring
  exact ⟨Nat.log 2 (j + 1), j + 1 - 2 ^ Nat.log 2 (j + 1), by omega, by omega⟩

theorem nodeLen_pos (n j : Nat) (hj : j < n) : 0 < (nodeIv n j).2 := by
  obtain ⟨d, i, hi, rfl⟩ := node_decomp j
  have h2dpos : 0 < 2 ^ d := Nat.pos_pow_of_pos _ (by omega)
  have hdp : d ≤ Nat.log 2 (n + 1) :=
    (Nat.pow_le_iff_le_log (by omega) (by omega)).mp (by omega)
  have heq := (nodeIv_closed n d i hi).1 hdp
  rw [heq]
  dsimp only
  by_cases hqd : d = Nat.log 2 (n + 1)
  · rw [show Nat.log 2 (n + 1) - d = 0 by omega, pow_zero]
    have hpp : 2 ^ d = 2 ^ Nat.log 2 (n + 1) := by rw [hqd]
    omega
  · have h2 : 2 ≤ 2 ^ (Nat.log 2 (n + 1) - d) := by
      calc (2 : Nat) = 2 ^ 1 := by norm_num
        _ ≤ 2 ^ (Nat.log 2 (n + 1) - d) :=
          Nat.pow_le_pow_right (by omega) (by omega)
    omega

theorem nodeLen_zero (n j : Nat) (hj : n ≤ j) : (nodeIv n j).2 = 0 := by
  obtain ⟨d, i, hi, rfl⟩ := node_decomp j
  rcases Nat.lt_or_ge (Nat.log 2 (n + 1)) d with hlt | hge
  · exact (nodeIv_closed n d i hi).2 hlt
  · have heq := (nodeIv_closed n d i hi).1 hge
    rw [heq]
    dsimp only
    have h1 : 2 ^ Nat.log 2 (n + 1) ≤ n + 1 := Nat.pow_log_le_self 2 (by omega)
    by_cases hdp : d = Nat.log 2 (n + 1)
    · rw [show Nat.log 2 (n + 1) - d = 0 by omega, pow_zero]
      have hpp : 2 ^ d = 2 ^ Nat.log 2 (n + 1) := by rw [hdp]
      omega
    · exfalso
      have hstep : 2 ^ (d + 1) ≤ 2 ^ Nat.log 2 (n + 1) :=
        Nat.pow_le_pow_right (by omega) (by omega)
      have h2d1 : 2 ^ (d + 1) = 2 * 2 ^ d := by ring
      omega

theorem nodeIv_bound (n j : Nat) (hpos : 0 < (nodeIv n j).2) :
    (nodeIv n j).1 + (nodeIv n j).2 ≤ n := by
  obtain ⟨d, i, hi, rfl⟩ := node_decomp j
  have hge : d ≤ Nat.log 2 (n + 1) := by
    by_contra hlt
    rw [(nodeIv_closed n d i hi).2 (by omega)] at hpos
    omega
  have heq := (nodeIv_closed n d i hi).1 hge
  rw [heq]
  dsimp only
  have hQ : 2 ^ d * 2 ^ (Nat.log 2 (n + 1) - d) = 2 ^ Nat.log 2 (n + 1) := by
    rw [← pow_add]
    congr 1
    omega
  have h1 : 2 ^ Nat.log 2 (n + 1) ≤ n + 1 := Nat.pow_log_le_self 2 (by omega)
  have hiQ : i * 2 ^ (Nat.log 2 (n + 1) - d) + 2 ^ (Nat.log 2 (n + 1) - d) ≤
      2 ^ Nat.log 2 (n + 1) := by
    calc i * 2 ^ (Nat.log 2 (n + 1) - d) + 2 ^ (Nat.log 2 (n + 1) - d) =
        (i + 1) * 2 ^ (Nat.log 2 (n + 1) - d) := by ring
      _ ≤ 2 ^ d * 2 ^ (Nat.log 2 (n + 1) - d) :=
        Nat.mul_le_mul_right _ (by omega)
      _ = 2 ^ Nat.log 2 (n + 1) := hQ
  have hQ1 : 0 < 2 ^ (Nat.log 2 (n + 1) - d) := Nat.pos_pow_of_pos _ (by omega)
  set iQ := i * 2 ^ (Nat.log 2 (n + 1) - d) with hiQdef
  omega

theorem range_glue (m : Nat) : ∀ (s k : Nat),
    List.range' s m ++ List.range' (s + m) k = List.range' s (m + k) := by
  induction m with
  | zero =>
    intro s k
    simp
  | succ m ih =>
    intro s k
    rw [List.range'_succ, show s + (m + 1) = (s + 1) + m by omega,
      show m + 1 + k = (m + k) + 1 by omega, List.range'_succ,
      List.cons_append, ih (s + 1) k]

theorem inorder_maps (n : Nat) : ∀ fuel j, n - j ≤ fuel →
    (inorderIdx n j).map (nodeRoot n) =
      List.range' (nodeIv n j).1 (nodeIv n j).2 := by
  intro fuel
  induction fuel with
  | zero =>
    intro j hf
    rw [inorderIdx_ge n j (by omega), nodeLen_zero n j (by omega)]
    rfl
  | succ fuel ih =>
    intro j hf
    by_cases hj : j < n
    · rw [inorderIdx_lt n j hj, List.map_append, List.map_cons,
        ih (2 * j + 1) (by omega), ih (2 * j + 2) (by omega)]
      have hpos : 0 < (nodeIv n j).2 := nodeLen_pos n j hj
      have hfi : find_idx (nodeIv n j).2 < (nodeIv n j).2 :=
        find_idx_lt _ (by omega)
      rw [nodeIv_left, nodeIv_right]
      dsimp only
      rw [show nodeRoot n j = (nodeIv n j).1 + find_idx (nodeIv n j).2 from rfl]
      have h1 : nodeRoot n j :: List.range'
          ((nodeIv n j).1 + find_idx (nodeIv n j).2 + 1)
          ((nodeIv n j).2 - 1 - find_idx (nodeIv n j).2) =
          List.range' ((nodeIv n j).1 + find_idx (nodeIv n j).2)
            ((nodeIv n j).2 - find_idx (nodeIv n j).2) := by
        rw [show (nodeIv n j).2 - find_idx (nodeIv n j).2 =
          ((nodeIv n j).2 - 1 - find_idx (nodeIv n j).2) + 1 by omega,
          List.range'_succ]
        rfl
      rw [show ((nodeIv n j).1 + find_idx (nodeIv n j).2) :: List.range'
          ((nodeIv n j).1 + find_idx (nodeIv n j).2 + 1)
          ((nodeIv n j).2 - 1 - find_idx (nodeIv n j).2) =
          List.range' ((nodeIv n j).1 + find_idx (nodeIv n j).2)
            ((nodeIv n j).2 - find_idx (nodeIv n j).2) from h1,
        range_glue (find_idx (nodeIv n j).2) (nodeIv n j).1
          ((nodeIv n j).2 - find_idx (nodeIv n j).2),
        show find_idx (nodeIv n j).2 +
          ((nodeIv n j).2 - find_idx (nodeIv n j).2) = (nodeIv n j).2 by omega]
    · rw [inorderIdx_ge n j hj, nodeLen_zero n j (by omega)]
      rfl

theorem inorderIdx_mem (n : Nat) : ∀ fuel j x, n - j ≤ fuel →
    x ∈ inorderIdx n j → x < n := by
  intro fuel
  induction fuel with
  | zero =>
    intro j x hf hx
    rw [inorderIdx_ge n j (by omega)] at hx
    exact absurd hx (List.not_mem_nil x)
  | succ fuel ih =>
    intro j x hf hx
    by_cases hj : j < n
    · rw [inorderIdx_lt n j hj] at hx
      rcases List.mem_append.mp hx with hx | hx
      · exact ih (2 * j + 1) x (by omega) hx
      · rcases List.mem_cons.mp hx with rfl | hx
        · exact hj
        · exact ih (2 * j + 2) x (by omega) hx
    · rw [inorderIdx_ge n j hj] at hx
      exact absurd hx (List.not_mem_nil x)

theorem bstChildren_node {α : Type} (l : List α) (a : Nat) (ha : a < l.length) :
    bstChildren l (nodeIv l.length a).1
        ((nodeIv l.length a).1 + (nodeIv l.length a).2 - 1) =
      (List.range' (min (2 * a + 1) l.length)
          (min (2 * a + 3) l.length - min (2 * a + 1) l.length)).map
        (fun j => ((nodeIv l.length j).1,
          (nodeIv l.length j).1 + (nodeIv l.length j).2 - 1)) := by
  have hpos := nodeLen_pos l.length a ha
  have hbnd := nodeIv_bound l.length a hpos
  have hfi := find_idx_lt (nodeIv l.length a).2 (by omega)
  have hL1 : (nodeIv l.length (2 * a + 1)).1 = (nodeIv l.length a).1 := by
    rw [nodeIv_left]
  have hL2 : (nodeIv l.length (2 * a + 1)).2 =
      find_idx (nodeIv l.length a).2 := by
    rw [nodeIv_left]
  have hR1 : (nodeIv l.length (2 * a + 2)).1 =
      (nodeIv l.length a).1 + find_idx (nodeIv l.length a).2 + 1 := by
    rw [nodeIv_right]
  have hR2 : (nodeIv l.length (2 * a + 2)).2 =
      (nodeIv l.length a).2 - 1 - find_idx (nodeIv l.length a).2 := by
    rw [nodeIv_right]
  have hlen : (nodeIv l.length a).1 + (nodeIv l.length a).2 - 1 -
      (nodeIv l.length a).1 + 1 = (nodeIv l.length a).2 := by omega
  rw [bstChildren, hlen]
  rcases Nat.lt_or_ge (2 * a + 2) l.length with h2 | h2
  · have hp1 : 0 < (nodeIv l.length (2 * a + 1)).2 :=
      nodeLen_pos _ _ (by omega)
    have hp2 : 0 < (nodeIv l.length (2 * a + 2)).2 := nodeLen_pos _ _ h2
    have hb2 := nodeIv_bound l.length (2 * a + 2) hp2
    rw [if_pos (by omega), if_pos (by constructor <;> omega)]
    rw [show min (2 * a + 1) l.length = 2 * a + 1 by omega,
      show min (2 * a + 3) l.length = 2 * a + 3 by omega,
      show 2 * a + 3 - (2 * a + 1) = 1 + 1 by omega,
      List.range'_succ, List.range'_succ, List.range'_zero,
      show 2 * a + 1 + 1 = 2 * a + 2 by omega]
    simp only [List.map_cons, List.map_nil, List.singleton_append,
      List.cons.injEq, Prod.mk.injEq]
    refine ⟨⟨?_, ?_⟩, ⟨?_, ?_⟩, trivial⟩ <;> omega
  · rcases Nat.lt_or_ge (2 * a + 1) l.length with h1 | h1
    · have hp1 : 0 < (nodeIv l.length (2 * a + 1)).2 := nodeLen_pos _ _ h1
      have hz2 : (nodeIv l.length (2 * a + 2)).2 = 0 := nodeLen_zero _ _ h2
      rw [if_pos (by omega), if_neg (by
        intro hcon
        exact absurd hcon.1 (by omega))]
      rw [show min (2 * a + 1) l.length = 2 * a + 1 by omega,
        show min (2 * a + 3) l.length = l.length by omega,
        show l.length - (2 * a + 1) = 0 + 1 by omega,
        List.range'_succ, List.range'_zero]
      simp only [List.map_cons, List.map_nil, List.append_nil,
        List.cons.injEq, Prod.mk.injEq]
      refine ⟨⟨?_, ?_⟩, trivial⟩ <;> omega
    · have hz1 : (nodeIv l.length (2 * a + 1)).2 = 0 := nodeLen_zero _ _ h1
      have hz2 : (nodeIv l.length (2 * a + 2)).2 = 0 := nodeLen_zero _ _ h2
      rw [if_neg (by omega), if_neg (by
        intro hcon
        exact absurd hcon.1 (by omega))]
      rw [show min (2 * a + 1) l.length = l.length by omega,
        show min (2 * a + 3) l.length = l.length by omega,
        show l.length - l.length = 0 by omega, List.range'_zero]
      simp

theorem bstBfs_run {α : Type} (l : List α) (d : α) :
    ∀ fuel a, l.length - a ≤ fuel → a ≤ l.length →
      bstBfs l ((List.range' a (min (2 * a + 1) l.length - a)).map
        (fun j => ((nodeIv l.length j).1,
          (nodeIv l.length j).1 + (nodeIv l.length j).2 - 1))) =
      some ((List.range' a (l.length - a)).map
        (fun j => l.getD (nodeRoot l.length j) d)) := by
  intro fuel
  induction fuel with
  | zero =>
    intro a hf ha
    rw [show min (2 * a + 1) l.length - a = 0 by omega,
      show l.length - a = 0 by omega, List.range'_zero, List.map_nil,
      List.map_nil, bstBfs]
  | succ fuel ih =>
    intro a hf ha
    by_cases haN : l.length ≤ a
    · rw [show min (2 * a + 1) l.length - a = 0 by omega,
        show l.length - a = 0 by omega, List.range'_zero, List.map_nil,
        List.map_nil, bstBfs]
    · have halt : a < l.length := by omega
      have hposA : 0 < (nodeIv l.length a).2 := nodeLen_pos _ _ halt
      have hbndA : (nodeIv l.length a).1 + (nodeIv l.length a).2 ≤ l.length :=
        nodeIv_bound _ _ hposA
      have hfiA : find_idx (nodeIv l.length a).2 < (nodeIv l.length a).2 :=
        find_idx_lt _ (by omega)
      have hlen : (nodeIv l.length a).1 + (nodeIv l.length a).2 - 1 -
          (nodeIv l.length a).1 + 1 = (nodeIv l.length a).2 := by omega
      have hroot : (nodeIv l.length a).1 + find_idx (nodeIv l.length a).2 <
          l.length := by omega
      rw [show min (2 * a + 1) l.length - a =
        (min (2 * a + 1) l.length - (a + 1)) + 1 by omega, List.range'_succ,
        List.map_cons]
      rw [bstBfs, hlen, List.getElem?_eq_getElem hroot]
      have hq : (List.range' (a + 1)
            (min (2 * a + 1) l.length - (a + 1))).map
          (fun j => ((nodeIv l.length j).1,
            (nodeIv l.length j).1 + (nodeIv l.length j).2 - 1)) ++
          bstChildren l (nodeIv l.length a).1
            ((nodeIv l.length a).1 + (nodeIv l.length a).2 - 1) =
          (List.range' (a + 1) (min (2 * (a + 1) + 1) l.length - (a + 1))).map
            (fun j => ((nodeIv l.length j).1,
              (nodeIv l.length j).1 + (nodeIv l.length j).2 - 1)) := by
        rw [bstChildren_node l a halt, ← List.map_append]
        have hglue := range_glue (min (2 * a + 1) l.length - (a + 1)) (a + 1)
          (min (2 * a + 3) l.length - min (2 * a + 1) l.length)
        rw [show (a + 1) + (min (2 * a + 1) l.length - (a + 1)) =
          min (2 * a + 1) l.length by omega] at hglue
        rw [hglue, show min (2 * a + 1) l.length - (a + 1) +
            (min (2 * a + 3) l.length - min (2 * a + 1) l.length) =
          min (2 * (a + 1) + 1) l.length - (a + 1) by omega]
      rw [hq, ih (a + 1) (by omega) (by omega)]
      rw [show l.length - a = (l.length - (a + 1)) + 1 by omega,
        List.range'_succ, List.map_cons]
      rw [← List.getD_eq_getElem l d hroot]
      rfl

theorem range_getD_self {α : Type} (l : List α) (d : α) :
    (List.range' 0 l.length).map (fun k => l.getD k d) = l := by
  apply List.ext_getElem
  · rw [List.length_map, List.length_range']
  · intro i h1 h2
    simp only [List.getElem_map, List.getElem_range']
    rw [List.getD_eq_getElem _ _ (by omega)]
    simp only [Nat.one_mul, Nat.zero_add]

/-- C7.  BST inversion: for every vector of length ≥ 1 (in particular every
sorted one), `as_bst_order` succeeds with an output of the same length whose
slot `j` holds the source element at the root index of heap node `j`'s
interval, and reading the output as the level-order layout of a complete
binary tree — children of node `j` at `2j+1` and `2j+2` — and traversing it
in order recovers the original sequence exactly. -/
theorem bst_inorder_inversion {α : Type} (d : α) (l : List α)
    (h : 1 ≤ l.length) :
    ∃ out, as_bst_order l = some out ∧ out.length = l.length ∧
      (∀ j, j < l.length → out.getD j d = l.getD (nodeRoot l.length j) d) ∧
      (inorderIdx l.length 0).map (fun j => out.getD j d) = l := by
  have hne : l ≠ [] := by
    intro he
    rw [he] at h
    simp at h
  have hbfs := bstBfs_run l d l.length 0 (by omega) (by omega)
  simp only [Nat.sub_zero] at hbfs
  have hslot : ∀ j, j < l.length →
      ((List.range' 0 l.length).map
        (fun j => l.getD (nodeRoot l.length j) d)).getD j d =
      l.getD (nodeRoot l.length j) d := by
    intro j hj
    rw [List.getD_eq_getElem _ _
      (by rw [List.length_map, List.length_range']; exact hj)]
    simp only [List.getElem_map, List.getElem_range', Nat.one_mul,
      Nat.zero_add]
  refine ⟨(List.range' 0 l.length).map
    (fun j => l.getD (nodeRoot l.length j) d), ?_, ?_, hslot, ?_⟩
  · rw [as_bst_order, if_neg (by simpa [List.isEmpty_iff] using hne)]
    have h0 : [((0 : Nat), l.length - 1)] =
        (List.range' 0 (min (2 * 0 + 1) l.length - 0)).map
          (fun j => ((nodeIv l.length j).1,
            (nodeIv l.length j).1 + (nodeIv l.length j).2 - 1)) := by
      rw [show min (2 * 0 + 1) l.length - 0 = 0 + 1 by omega,
        List.range'_succ, List.range'_zero, List.map_cons, List.map_nil]
      simp only [List.cons.injEq, Prod.mk.injEq, nodeIv_zero, true_and,
        and_true]
      omega
    rw [h0]
    exact hbfs
  · rw [List.length_map, List.length_range']
  · have hcomp : (inorderIdx l.length 0).map
        (fun j => ((List.range' 0 l.length).map
          (fun j => l.getD (nodeRoot l.length j) d)).getD j d) =
        (inorderIdx l.length 0).map
          (fun j => l.getD (nodeRoot l.length j) d) := by
      apply List.map_congr_left
      intro j hj
      exact hslot j (inorderIdx_mem l.length l.length 0 j (by omega) hj)
    rw [hcomp]
    have hmm2 : (inorderIdx l.length 0).map
        (fun j => l.getD (nodeRoot l.length j) d) =
        ((inorderIdx l.length 0).map (nodeRoot l.length)).map
          (fun k => l.getD k d) := by
      rw [List.map_map]
      rfl
    rw [hmm2, inorder_maps l.length l.length 0 (by omega), nodeIv_zero]
    exact range_getD_self l d

theorem bst_inorder_inversion_witness :
    1 ≤ ([0, 1, 2] : List Nat).length ∧
    ∃ out, as_bst_order ([0, 1, 2] : List Nat) = some out ∧
      out.length = ([0, 1, 2] : List Nat).length ∧
      (∀ j, j < ([0, 1, 2] : List Nat).length →
        out.getD j 0 =
          ([0, 1, 2] : List Nat).getD
            (nodeRoot ([0, 1, 2] : List Nat).length j) 0) ∧
      (inorderIdx ([0, 1, 2] : List Nat).length 0).map
        (fun j => out.getD j 0) = ([0, 1, 2] : List Nat) :=
  ⟨by decide, bst_inorder_inversion 0 [0, 1, 2] (by decide)⟩

end BstInversion

end Pung
